import Mathlib

/-!
Shallow embedding of the Glue Converter waveform engine
(`glue_converter.py`: `GlueWave`, `AsciiWave`, `GlueConverter`) and proofs
about its codec, importers and analysis operations.

Python strings are modelled as `List Char`; Python's unbounded non-negative
integers as `Nat` (all integers handled by the modelled claims are
non-negative); Python floats appearing as time ratios as exact fractions of naturals
(the float arithmetic the program performs on them is modelled by exact
rational arithmetic); fallible operations return `Option`/`Except`.
-/

set_option maxRecDepth 10000

abbrev PyStr := List Char

/-! ### Python string primitives -/

/-- Decimal digit character, `chr(48 + d)` for `d < 10`. -/
def pyDigitChar (d : Nat) : Char := Char.ofNat (48 + d)

/-- Fuel-driven decimal printer; faithful model of Python `str()` on a
non-negative `int` (most significant digit first, no leading zeros). -/
def pyStrNatAux : Nat → Nat → List Char
  | 0, _ => []
  | fuel + 1, n =>
      if n < 10 then [pyDigitChar n]
      else pyStrNatAux fuel (n / 10) ++ [pyDigitChar (n % 10)]

/-- Model of Python `str(n)` for a non-negative integer `n`. -/
def pyStrNat (n : Nat) : PyStr := pyStrNatAux (n + 1) n

/-- Numeric value of a digit string (most significant first). -/
def charsVal (cs : PyStr) : Nat := cs.foldl (fun a c => 10 * a + (c.toNat - 48)) 0

/-- Model of Python `str.strip()`: drop leading and trailing whitespace. -/
def pyTrim (cs : PyStr) : PyStr :=
  (((cs.dropWhile Char.isWhitespace).reverse).dropWhile Char.isWhitespace).reverse

/-- Model of Python `int(s)` restricted to unsigned decimal tokens
(the only numeric tokens the modelled glue files contain; Python
additionally accepts a sign and underscores). Returns `none` exactly
when Python raises `ValueError` on such tokens. -/
def pyIntChars (cs : PyStr) : Option Nat :=
  let t := pyTrim cs
  if !t.isEmpty && t.all Char.isDigit then some (charsVal t) else none

/-- Model of Python `float(s)` restricted to the natural-number-valued
strings written by `write_glue` (which prints `strobe_ps` with `str`).
Python guarantees `float(str(x)) == x`, which this restriction preserves. -/
def pyFloatNat (cs : PyStr) : Option Nat := pyIntChars cs

/-- Does `s` start with `pat`? (helper for substring search). -/
def pyStarts : PyStr → PyStr → Bool
  | _, [] => true
  | [], _ :: _ => false
  | c :: cs, p :: ps => c == p && pyStarts cs ps

/-- Model of Python's `pat in s` substring test. -/
def pyIn (pat : PyStr) : PyStr → Bool
  | [] => pat.isEmpty
  | c :: cs => pyStarts (c :: cs) pat || pyIn pat cs

/-- Model of Python `s.split(sep)` for a single-character separator. -/
def splitOnChar (sep : Char) : PyStr → List PyStr
  | [] => [[]]
  | c :: cs =>
      let r := splitOnChar sep cs
      if c = sep then [] :: r
      else
        match r with
        | [] => [[c]]
        | t :: ts => (c :: t) :: ts

/-- Model of Python `sep.join(parts)` for a single-character separator. -/
def joinChar (sep : Char) : List PyStr → PyStr
  | [] => []
  | [s] => s
  | s :: rest => s ++ sep :: joinChar sep rest

/-! ### GlueWave (glue_converter.py lines 96-158) -/

/-- The `hardware` constructor argument of `GlueWave.__init__` may be a
slash-joined string, a list of components, or `None`. -/
inductive HWArg where
  | hwStr : PyStr → HWArg
  | hwList : List PyStr → HWArg
  | hwNone : HWArg
deriving Repr, DecidableEq

/-- The `GlueWave` value object: `vector` (one bit-packed integer per
timestep), `strobe_ps`, `hardware` (list of path components, or unset),
the defaults `mask`, and the open `metadata` map. -/
structure GlueWave where
  vector : List Nat
  strobe_ps : Option Nat
  hardware : Option (List PyStr)
  mask : Nat
  metadata : List (PyStr × PyStr)
deriving Repr, DecidableEq

/-- `GlueWave.__init__` (lines 98-126).  A string hardware argument is
split on `/`; a list is taken as is.  Line 126 executes
`self.metadata = {}`, so the `metadata` constructor argument is discarded
whatever it is. -/
def GlueWave.init (vector : List Nat) (strobe_ps : Option Nat)
    (hardware : HWArg) (metadata_arg : List (PyStr × PyStr)) : GlueWave :=
  let _ := metadata_arg
  { vector := vector
    strobe_ps := strobe_ps
    hardware :=
      match hardware with
      | HWArg.hwStr s => some (splitOnChar '/' s)
      | HWArg.hwList l => some l
      | HWArg.hwNone => none
    mask := 0
    metadata := [] }

/-- `GlueWave.__eq__` (lines 128-134): vectors, hardware paths and strobe
periods must agree; `mask` and `metadata` are not compared. -/
def GlueWave.eq (w other : GlueWave) : Bool :=
  w.vector == other.vector && w.hardware == other.hardware
    && w.strobe_ps == other.strobe_ps

/-- `x | (1 << pos)` on a non-negative integer. -/
def setBitOn (x pos : Nat) : Nat := x ||| (1 <<< pos)

/-- `x & ~(1 << pos)` on a non-negative integer (clears bit `pos`). -/
def clearBitOn (x pos : Nat) : Nat := Nat.bitwise (fun a b => a && !b) x (1 <<< pos)

/-- `GlueWave.set_mask_bit` (lines 138-142). -/
def GlueWave.set_mask_bit (w : GlueWave) (bit_pos value : Nat) : GlueWave :=
  if value = 1 then { w with mask := setBitOn w.mask bit_pos }
  else { w with mask := clearBitOn w.mask bit_pos }

/-- `GlueWave.apply_mask` (lines 144-145): OR the mask into every element. -/
def GlueWave.apply_mask (w : GlueWave) : GlueWave :=
  { w with vector := w.vector.map (fun x => x ||| w.mask) }

/-- `GlueWave.set_bit` (lines 151-155).  Python raises `IndexError` when
`t` is out of range; every modelled call site keeps `t` in range, where
`List.set` agrees with the Python update. -/
def GlueWave.set_bit (w : GlueWave) (t bit_pos value : Nat) : GlueWave :=
  if value = 1 then { w with vector := w.vector.set t (setBitOn (w.vector.getD t 0) bit_pos) }
  else { w with vector := w.vector.set t (clearBitOn (w.vector.getD t 0) bit_pos) }

/-- `GlueWave.get_trace` (lines 157-158). -/
def GlueWave.get_trace (w : GlueWave) (bit_pos : Nat) : List Bool :=
  w.vector.map (fun v => decide (0 < v &&& 2 ^ bit_pos))

/-! ### Codec: write_glue (lines 586-651) -/

/-- One step of the compression loop of `write_glue` (lines 619-630):
an element equal to its predecessor contributes the single character `@`;
otherwise a comma and the element's decimal representation are appended. -/
def encodeRest : Nat → List Nat → PyStr
  | _, [] => []
  | prev, x :: rest =>
      (if x = prev then ['@'] else ',' :: pyStrNat x) ++ encodeRest x rest

/-- The compressed first line built by `write_glue` (lines 616-632):
the first element's decimal form followed by the compression steps. -/
def encodeVector : List Nat → PyStr
  | [] => []
  | x :: rest => pyStrNat x ++ encodeRest x rest

/-- `"//STROBE_PICOSECONDS:"`, the tag of the mandatory strobe line. -/
def strobeTag : PyStr := "//STROBE_PICOSECONDS:".toList

/-- `"//HARDWARE:"`, the tag of the mandatory hardware line. -/
def hwTag : PyStr := "//HARDWARE:".toList

/-- The hardware metadata line written at line 646. -/
def hwMetaLine (comps : List PyStr) : PyStr := hwTag ++ joinChar '/' comps

/-- `str(self.strobe_ps)`: Python prints `None` for an unset strobe. -/
def pyStrOptNat : Option Nat → PyStr
  | some n => pyStrNat n
  | none => "None".toList

/-- Result of `write_glue`: whether the call returned the error sentinel
`-1`, and the lines of the file it wrote (`none` when no file was
created). -/
structure WriteGlueResult where
  returned_err : Bool
  file : Option (List PyStr)
deriving Repr, DecidableEq

/-- `GlueConverter.write_glue` (lines 586-651).  A `None` wave or an empty
vector is rejected at lines 588-590 with return value `-1` before any file
is opened.  Otherwise the compressed (or plain comma-separated) vector
line, the two mandatory metadata lines and one `//KEY:VALUE` line per
metadata pair are written.  (Python would raise `TypeError` at line 646 if
`hardware` were `None`; no modelled claim reaches that state.) -/
def write_glue (glue_wave : Option GlueWave) (compress : Bool) : WriteGlueResult :=
  match glue_wave with
  | none => { returned_err := true, file := none }
  | some w =>
      if w.vector.length < 1 then { returned_err := true, file := none }
      else
        let writestring :=
          if compress then encodeVector w.vector
          else joinChar ',' (w.vector.map pyStrNat)
        { returned_err := false
          file := some (writestring ::
            (strobeTag ++ pyStrOptNat w.strobe_ps) ::
            hwMetaLine (w.hardware.getD []) ::
            w.metadata.map (fun kv => "//".toList ++ kv.1 ++ ':' :: kv.2)) }

/-! ### Codec: read_glue (lines 659-723) -/

/-- Decoding of one comma-separated token (lines 685-699): a token
containing `@` contributes its base value (the token with all `@` removed,
parsed as an integer) repeated once plus once per `@`; any other token
contributes its integer value.  `none` models the `ValueError` caught at
line 701. -/
def decodeEntry (entry : PyStr) : Option (List Nat) :=
  if entry.contains '@' then
    (pyIntChars (entry.filter (fun c => !(c == '@')))).map
      (fun base => List.replicate (entry.count '@' + 1) base)
  else
    (pyIntChars entry).map (fun n => [n])

/-- Sequential decoding of all tokens; the flattened result fills the
vector.  (The source preallocates `expected_len = #',' + #'@' + 1` slots
and fills them with a running index; each token writes exactly
`1 + #'@'-in-token` slots, and these counts always sum to `expected_len`,
so the fill is the concatenation modelled here.) -/
def decodeTokens : List PyStr → Option (List Nat)
  | [] => some []
  | e :: ls =>
      match decodeEntry e, decodeTokens ls with
      | some chunk, some rest => some (chunk ++ rest)
      | _, _ => none

/-- Parsing of the first line of a glue file (lines 674-699). -/
def decodeFirstLine (line : PyStr) : Option (List Nat) :=
  decodeTokens (splitOnChar ',' (pyTrim line))

/-- One step of the metadata scan (lines 713-717): a line containing
`STROBE` sets the strobe from the text after the line's last colon (an
unparseable value raises an uncaught `ValueError`); a line containing
`HARDWARE` sets the hardware path the same way. -/
def scanLine (acc : Option Nat × Option PyStr) (line : PyStr) :
    Except String (Option Nat × Option PyStr) :=
  let lastSeg := (splitOnChar ':' (pyTrim line)).getLastD []
  match (if pyIn "STROBE".toList line then
           match pyFloatNat lastSeg with
           | some v => Except.ok (some v)
           | none => Except.error "ValueError: could not convert string to float"
         else Except.ok acc.1) with
  | Except.error e => Except.error e
  | Except.ok st =>
      Except.ok (st, if pyIn "HARDWARE".toList line then some lastSeg else acc.2)

/-- Outcome of `read_glue`: an uncaught Python exception, a graceful
failure (the function returns `None` after logging), or a wave. -/
inductive ReadResult where
  | crash : String → ReadResult
  | failed : ReadResult
  | ok : GlueWave → ReadResult
deriving Repr, DecidableEq

/-- `GlueConverter.read_glue` (lines 659-723) on a file modelled as its
list of lines (`none` = the file does not exist).
  * missing file: `FileNotFoundError` is caught (lines 669-671), `None` is
    returned;
  * empty file: `lines[0]` at line 674 raises an uncaught `IndexError`;
  * malformed token: the `ValueError` is caught (lines 701-704), `None` is
    returned;
  * all lines are then scanned for `STROBE`/`HARDWARE` metadata, and the
    wave is built by `GlueWave(vector, strobe_ps, hardware)`. -/
def read_glue (file : Option (List PyStr)) : ReadResult :=
  match file with
  | none => ReadResult.failed
  | some lines =>
      match lines with
      | [] => ReadResult.crash "IndexError: list index out of range"
      | line0 :: _ =>
          match decodeFirstLine line0 with
          | none => ReadResult.failed
          | some vector =>
              match List.foldlM scanLine ((none, none) : Option Nat × Option PyStr) lines with
              | Except.error e => ReadResult.crash e
              | Except.ok (strobe_ps, hardware) =>
                  ReadResult.ok (GlueWave.init vector strobe_ps
                    (match hardware with
                     | some h => HWArg.hwStr h
                     | none => HWArg.hwNone) [])

/-- A path character acceptable in a hardware component: not the joining
slash, not the colon that delimits metadata values, and not whitespace. -/
def goodPathChar (c : Char) : Bool := !(c == '/') && !(c == ':') && !c.isWhitespace

/-- Well-formedness of a hardware path for the codec round trip: exactly
three components, made of path characters, whose metadata line does not
accidentally contain the token `STROBE` (which would make the scan at
line 715 try to parse it as a float). -/
def wellFormedHW (comps : List PyStr) : Bool :=
  comps.length == 3 && comps.all (fun s => s.all goodPathChar)
    && !(pyIn "STROBE".toList (hwMetaLine comps))

/-! ### The loaded IOSpec (state built by parse_iospec_file, lines 869-950) -/

/-- The converter state produced by `parse_iospec_file`: the signal lists
and the per-signal dictionaries (modelled as total functions; the engine
only ever looks dictionaries up at names drawn from the signal lists). -/
structure IOSpecState where
  IOs : List PyStr
  Input_IOs : List PyStr
  Output_IOs : List PyStr
  Multiplexed_IOs : List (List PyStr)
  IO_dir : PyStr → PyStr
  IO_pos : PyStr → Nat
  IO_default : PyStr → Nat
  IO_hardware : PyStr → PyStr

/-- The signals a conversion works on (`IOs_to_Plot`, e.g. lines 322-325):
the input signals only, or all signals. -/
def scopeSignals (gc : IOSpecState) (inputs_only : Bool) : List PyStr :=
  if inputs_only then gc.Input_IOs else gc.IOs

/-! ### Analysis operations -/

/-- The per-signal 0/1 trace `[1 if x & (1 << pos) else 0 for x in
wave.vector]` (lines 1024, 1048-1049; Python truthiness maps any nonzero
conjunction to 1). -/
def bitTrace (wave : GlueWave) (pos : Nat) : List Nat :=
  wave.vector.map (fun x => if x &&& (1 <<< pos) ≠ 0 then 1 else 0)

/-- `GlueConverter.get_clocked_bitstream` (lines 1040-1055): with the
clock and data traces extracted by bit position, walk `i = 1 .. len-1`
and append `data[i-1]` whenever the clock is 1 at `i` and 0 at `i-1`.
`none` models the `-1` returned when no IOSpec is loaded. -/
def get_clocked_bitstream (gc : IOSpecState) (wave : GlueWave)
    (clock_name data_name : PyStr) : Option (List Nat) :=
  if gc.IOs.length = 0 then none
  else
    let clock_sig := bitTrace wave (gc.IO_pos clock_name)
    let data_sig := bitTrace wave (gc.IO_pos data_name)
    some ((List.range' 1 (wave.vector.length - 1)).foldl
      (fun bs i =>
        if clock_sig.getD i 0 = 1 ∧ clock_sig.getD (i - 1) 0 = 0
        then bs ++ [data_sig.getD (i - 1) 0] else bs) [])

/-- The specification's description of the clocked-bitstream extraction:
walk timesteps `1..len-1`, and exactly at each step `i` where the clock
transitions from 0 at `i-1` to 1 at `i`, emit the data bit at `i-1`. -/
def clockedBitstreamSpec (clock data : List Nat) : List Nat :=
  (List.range' 1 (clock.length - 1)).filterMap
    (fun i => if clock.getD (i - 1) 0 = 0 ∧ clock.getD i 0 = 1
              then some (data.getD (i - 1) 0) else none)

/-! ### dict2Glue (lines 503-580) -/

/-- The hardware-inference loop of `dict2Glue` (lines 529-538): the first
signal fixes the hardware when none was supplied; any signal on different
hardware aborts with `-1` (outer `none`). -/
def inferHWLoop (gc : IOSpecState) :
    List (PyStr × List Nat) → Option PyStr → Option (Option PyStr)
  | [], h0 => some h0
  | kv :: rest, h0 =>
      let h1 := match h0 with
                | none => some (gc.IO_hardware kv.1)
                | some h => some h
      if h1 = some (gc.IO_hardware kv.1) then inferHWLoop gc rest h1 else none

/-- In-place indexed update `for i in range(len(vector)): vector[i] = f(i, vector[i])`. -/
def mapWithIdx (f : Nat → Nat → Nat) : Nat → List Nat → List Nat
  | _, [] => []
  | i, x :: rest => f i x :: mapWithIdx f (i + 1) rest

/-- The bit-packing step of `dict2Glue` for one signal (lines 546-555):
OR the signal's value (its last value, once past the signal's end) shifted
to the signal's bit position into every vector element. -/
def packSignal (gc : IOSpecState) (vec : List Nat) (kv : PyStr × List Nat) : List Nat :=
  let io_pos := gc.IO_pos kv.1
  let signal_len := kv.2.length
  mapWithIdx (fun i x =>
    if i < signal_len then x ||| (kv.2.getD i 0 <<< io_pos)
    else x ||| (kv.2.getD (signal_len - 1) 0 <<< io_pos)) 0 vec

/-- `GlueConverter.dict2Glue` (lines 503-580), file outputs omitted
(`output_mode` only adds observational file writes).  `none` models the
`-1` returned on a key missing from the IOSpec or on mismatched hardware.
Python's `max()` over the value lengths raises on an empty dict; the
modelled claims always pass a non-empty dict, where `foldl max 0` agrees. -/
def dict2Glue (gc : IOSpecState) (waves_dict : List (PyStr × List Nat))
    (hardware_arg : Option PyStr) (bit_clock_freq : Option Nat) : Option GlueWave :=
  if !(waves_dict.all (fun kv => gc.IOs.contains kv.1)) then none
  else
    match inferHWLoop gc waves_dict hardware_arg with
    | none => none
    | some hw? =>
        let max_pattern_len := (waves_dict.map (fun kv => kv.2.length)).foldl max 0
        let vector := waves_dict.foldl (packSignal gc) (List.replicate max_pattern_len 0)
        let freq := bit_clock_freq.getD 10000000
        let strobe_ps := 1000000000000 / freq
        some (GlueWave.init vector (some strobe_ps)
          (match hw? with
           | some h => HWArg.hwStr h
           | none => HWArg.hwNone) [])

/-! ### VCD2Glue (lines 263-368) -/

/-- The VCD collaborator interface consumed by `VCD2Glue`: per scoped
signal name, either `none` (the lookup raises `KeyError`) or the logic
value (`"0"`/`"1"` string) at each absolute tick; plus the trace's start
and end ticks. -/
structure VCDTrace where
  signal : PyStr → Option (Nat → PyStr)
  starttime : Nat
  endtime : Nat

/-- The sampled VCD tick for output timestep `t` (line 338):
`int(t * ratio + starttime)` with `ratio = strobe_ps / vcd_timebase_ps`
carried as the exact fraction `ratio = (strobe_ps, vcd_timebase_ps)`.
Python `int()` truncates, which on these non-negative values is the
floor, and `⌊t·(a/b) + s⌋ = (t·a)/b + s` for a whole start tick `s`. -/
def sampleTick (ratio : Nat × Nat) (starttime t : Nat) : Nat :=
  (t * ratio.1) / ratio.2 + starttime

/-- The per-signal sampling loop for a signal present in the trace
(lines 336-340): set the signal's bit at every timestep where the trace
reads `"1"` at the sampled tick. -/
def addPresentSignal (f : Nat → PyStr) (ratio : Nat × Nat) (starttime pos : Nat)
    (w : GlueWave) : GlueWave :=
  (List.range w.vector.length).foldl
    (fun wv t => if f (sampleTick ratio starttime t) = "1".toList
                 then wv.set_bit t pos 1 else wv) w

/-- Processing of one signal by `VCD2Glue` (lines 330-345): a present
signal is sampled into its hardware group's wave; an absent one
(`KeyError`) stages its default into that wave's mask. -/
def processSignal (gc : IOSpecState) (vcd : VCDTrace) (tb_name : PyStr)
    (ratio : Nat × Nat) (waves : PyStr → GlueWave) (io : PyStr) : PyStr → GlueWave :=
  let hw := gc.IO_hardware io
  match vcd.signal (tb_name ++ '.' :: io) with
  | some f =>
      Function.update waves hw (addPresentSignal f ratio vcd.starttime (gc.IO_pos io) (waves hw))
  | none =>
      Function.update waves hw ((waves hw).set_mask_bit (gc.IO_pos io) (gc.IO_default io))

/-- `GlueConverter.VCD2Glue` (lines 263-368), modelled up to the wave
contents (the file writes at lines 353-358 go through `write_glue` and are
purely output).  Waves are keyed by hardware-group string; Python keeps
one wave per hardware value occurring in the IOSpec, modelled as a total
function whose values are only meaningful at those keys.  `none` models
the `-1` returned without a loaded IOSpec and the `AssertionError` of line
270 on a multiplexed IOSpec.  The start/end tick subtraction is modelled
on `Nat` (the trace end never precedes its start). -/
def VCD2GlueWaves (gc : IOSpecState) (vcd : VCDTrace) (strobe_ps : Nat)
    (vcd_timebase_ps : Nat) (tb_name : PyStr) (inputs_only : Bool) :
    Option (PyStr → GlueWave) :=
  if gc.IOs.length = 0 then none
  else if !gc.Multiplexed_IOs.isEmpty then none
  else
    let ratio : Nat × Nat := (strobe_ps, vcd_timebase_ps)
    let vlen : Nat := ((vcd.endtime - vcd.starttime) * vcd_timebase_ps) / strobe_ps
    let waves0 : PyStr → GlueWave := fun hw =>
      GlueWave.init (List.replicate vlen 0) (some strobe_ps) (HWArg.hwStr hw) []
    let waves1 := (scopeSignals gc inputs_only).foldl (processSignal gc vcd tb_name ratio) waves0
    some (fun hw => (waves1 hw).apply_mask)

/-- The length `int((endtime - starttime) / ratio)` of every wave produced
by `VCD2Glue` (line 293): `⌊d / (a/b)⌋ = (d·b)/a` exactly. -/
def vcdVectorLen (vcd : VCDTrace) (strobe_ps : Nat) (vcd_timebase_ps : Nat) : Nat :=
  ((vcd.endtime - vcd.starttime) * vcd_timebase_ps) / strobe_ps

/-- Python 3 `round()` on the exact non-negative value `num / den`:
nearest integer, ties to even. -/
def pythonRoundFrac (num den : Nat) : Nat :=
  let q := num / den
  let r := num % den
  if 2 * r < den then q
  else if den < 2 * r then q + 1
  else if q % 2 = 0 then q else q + 1

/-- Bit `pos` of element `t` of the wave that a `VCD2Glue` run produced
for hardware group `hw` (`false` when the run failed). -/
def sampleBitOf (o : Option (PyStr → GlueWave)) (hw : PyStr) (t pos : Nat) : Bool :=
  match o with
  | some waves => ((waves hw).vector.getD t 0).testBit pos
  | none => false

/-! ### AsciiWave (lines 166-228) -/

/-- `AsciiWave`: an ordered map from signal name to its bitstring. -/
structure AsciiWave where
  signals : List (PyStr × PyStr)
deriving Repr, DecidableEq

/-- `AsciiWave._extend_signal` (lines 177-179): replicate the bitstring's
last character `n` times.  Python indexes `[-1]`, raising on an empty
bitstring; modelled totally with `getLastD`, and only used on non-empty
bitstrings in the proved statements. -/
def extendSignalStr (s : PyStr) (n : Nat) : PyStr :=
  s ++ List.replicate n (s.getLastD '0')

/-- `AsciiWave.set_signal` (lines 183-188): append `str(set_val)` to the
named signal; every other signal is extended by one held character. -/
def AsciiWave.set_signal (w : AsciiWave) (sig_name : PyStr) (set_val : Nat) : AsciiWave :=
  ⟨w.signals.map (fun kv =>
    if kv.1 = sig_name then (kv.1, kv.2 ++ pyStrNat set_val)
    else (kv.1, extendSignalStr kv.2 1))⟩

/-- `AsciiWave.pulse_signal` (lines 190-201): append `010` (posedge) or
`101` to the named signal; every other signal is extended by three held
characters. -/
def AsciiWave.pulse_signal (w : AsciiWave) (sig_name : PyStr) (posedge : Bool) : AsciiWave :=
  let pulse := if posedge then "010".toList else "101".toList
  ⟨w.signals.map (fun kv =>
    if kv.1 = sig_name then (kv.1, kv.2 ++ pulse)
    else (kv.1, extendSignalStr kv.2 3))⟩

/-- First-match association lookup, the model of a Python dict access. -/
def alookup (k : PyStr) : List (PyStr × PyStr) → Option PyStr
  | [] => none
  | kv :: rest => if kv.1 = k then some kv.2 else alookup k rest

/-- `AsciiWave.custom_wave` (lines 207-223): all supplied patterns must
share the length of the first one (otherwise the edit leaves the wave
untouched — the source prints an error and, at line 215, raises an
uncaught `TypeError` on `dict_keys` indexing before returning); signals in
the supplied map get their pattern appended, all others are extended by
the pattern length.  An empty map would raise `StopIteration` at line 209
and is not modelled. -/
def AsciiWave.custom_wave (w : AsciiWave) (cw : List (PyStr × PyStr)) : AsciiWave :=
  match cw with
  | [] => w
  | (_, v0) :: _ =>
      if cw.all (fun kv => kv.2.length == v0.length) then
        ⟨w.signals.map (fun kv =>
          match alookup kv.1 cw with
          | some p => (kv.1, kv.2 ++ p)
          | none => (kv.1, extendSignalStr kv.2 v0.length))⟩
      else w

/-- All bitstrings of the wave have length `L`. -/
def AsciiWave.uniformLen (w : AsciiWave) (L : Nat) : Prop :=
  ∀ kv ∈ w.signals, (kv.2 : PyStr).length = L

/-- All bitstrings of the wave share one common length. -/
def AsciiWave.uniform (w : AsciiWave) : Prop :=
  ∀ kv ∈ w.signals, ∀ kv2 ∈ w.signals, (kv.2 : PyStr).length = (kv2.2 : PyStr).length

instance (w : AsciiWave) (L : Nat) : Decidable (w.uniformLen L) :=
  inferInstanceAs (Decidable (∀ kv ∈ w.signals, (kv.2 : PyStr).length = L))

instance (w : AsciiWave) : Decidable w.uniform :=
  inferInstanceAs (Decidable
    (∀ kv ∈ w.signals, ∀ kv2 ∈ w.signals, (kv.2 : PyStr).length = (kv2.2 : PyStr).length))

/-! ### ascii2Glue and the IOSpec mutation (lines 372-499) -/

/-- The multiplexed-group disambiguation of `ascii2Glue` (lines 440-447):
scan the group in order and keep the sole member present in the parsed
ascii file; two present members abort the call with `-1`. -/
def muxSelect (present : List PyStr) (muxset : List PyStr) : Except Unit (Option PyStr) :=
  muxset.foldlM
    (fun acc io =>
      if present.contains io then
        match acc with
        | none => Except.ok (some io)
        | some _ => Except.error ()
      else Except.ok acc) none

/-- The removal loop of `ascii2Glue` (lines 450-452): every group member
other than the chosen one is removed (first occurrence) from
`IOs_to_Plot`. -/
def muxPrune (ios : List PyStr) (muxset : List PyStr) (use? : Option PyStr) : List PyStr :=
  muxset.foldl
    (fun l io => if use? ≠ some io && l.contains io then l.erase io else l) ios

/-- The whole multiplexed-group loop of `ascii2Glue` (lines 439-452),
returning the final value of `IOs_to_Plot` together with whether the call
aborted inside the loop. -/
def muxPruneLoop (present : List PyStr) :
    List (List PyStr) → List PyStr → (List PyStr × Bool)
  | [], ios => (ios, false)
  | m :: rest, ios =>
      match muxSelect present m with
      | Except.error _ => (ios, true)
      | Except.ok use? => muxPruneLoop present rest (muxPrune ios m use?)

/-- The converter state after a call of `ascii2Glue` whose ascii file
names the signals `present` (lines 390-452): `IOs_to_Plot` is the object
`self.Input_IOs` itself (line 434) — not a copy — so the removals of line
452 mutate the loaded IOSpec.  No later statement of `ascii2Glue` writes
to any IOSpec field. -/
def ascii2GlueIOSpecAfter (gc : IOSpecState) (present : List PyStr)
    (inputs_only : Bool) : IOSpecState :=
  if gc.IOs.length = 0 then gc
  else if !(present.all (fun s => gc.IOs.contains s)) then gc
  else
    let r := muxPruneLoop present gc.Multiplexed_IOs (scopeSignals gc inputs_only)
    if inputs_only then { gc with Input_IOs := r.1 } else { gc with IOs := r.1 }

/-! ### Concrete fixtures -/

/-- The IOSpec of the repository's unit tests: `A` at bit 0, `B` at bit 1,
`C` at bit 2, all inputs of one hardware group. -/
def gcABC : IOSpecState where
  IOs := ["A".toList, "B".toList, "C".toList]
  Input_IOs := ["A".toList, "B".toList, "C".toList]
  Output_IOs := []
  Multiplexed_IOs := []
  IO_dir := fun _ => "I".toList
  IO_pos := fun s => if s = "A".toList then 0 else if s = "B".toList then 1 else 2
  IO_default := fun _ => 0
  IO_hardware := fun _ => "Caribou/apg/write".toList

/-- The waves dict of the repository's unit tests. -/
def dictABC : List (PyStr × List Nat) :=
  [("A".toList, [0, 1, 0, 1, 0, 1, 0, 1]),
   ("B".toList, [1, 1, 0, 0, 0, 0, 1, 1]),
   ("C".toList, [0, 0, 0, 1, 1, 1, 1, 1])]

/-- The packed wave of the unit tests (`TEST_WAVES_VECTOR`). -/
def waveABC : GlueWave :=
  GlueWave.init [2, 3, 0, 5, 4, 5, 6, 7] (some 100000)
    (HWArg.hwStr "Caribou/apg/write".toList) []

/-- A well-formed sample wave for the codec round trip. -/
def waveRT : GlueWave :=
  GlueWave.init [5, 5, 7] (some 25000)
    (HWArg.hwList ["PXI1Slot5".toList, "NI6583".toList, "se_io".toList]) []

/-- A one-signal IOSpec for the VCD sampling analysis. -/
def gcVCD : IOSpecState where
  IOs := ["A".toList]
  Input_IOs := ["A".toList]
  Output_IOs := []
  Multiplexed_IOs := []
  IO_dir := fun _ => "I".toList
  IO_pos := fun _ => 0
  IO_default := fun _ => 0
  IO_hardware := fun _ => "HW/X/y".toList

/-- A trace whose signal reads `"1"` at tick 2 only. -/
def fVCD : Nat → PyStr := fun t => if t = 2 then "1".toList else "0".toList

/-- A VCD trace containing the single signal `TB.A`, ticks 0..3. -/
def vcdA : VCDTrace where
  signal := fun name => if name = "TB.A".toList then some fVCD else none
  starttime := 0
  endtime := 3

/-- An IOSpec with the multiplexed pair `A`/`A2` (both inputs) and a
further input `B`. -/
def gcMux : IOSpecState where
  IOs := ["A".toList, "A2".toList, "B".toList]
  Input_IOs := ["A".toList, "A2".toList, "B".toList]
  Output_IOs := []
  Multiplexed_IOs := [["A".toList, "A2".toList]]
  IO_dir := fun _ => "I".toList
  IO_pos := fun s => if s = "B".toList then 1 else 0
  IO_default := fun _ => 0
  IO_hardware := fun _ => "HW/X/y".toList

/-- A two-signal ascii wave with equal one-character bitstrings. -/
def asciiAB : AsciiWave := ⟨[("A".toList, "0".toList), ("B".toList, "0".toList)]⟩

/-! ## Theorems -/

/-! ### Basic facts about the string primitives -/

theorem pyDigitChar_facts (d : Nat) (h : d < 10) :
    (pyDigitChar d).isDigit = true ∧ (pyDigitChar d).toNat - 48 = d := by
  interval_cases d <;> exact ⟨by decide, by decide⟩

theorem isDigit_not_ws {c : Char} (h : c.isDigit = true) : c.isWhitespace = false := by
  by_contra hws
  rw [Bool.not_eq_false] at hws
  simp only [Char.isWhitespace, Bool.or_eq_true, decide_eq_true_eq] at hws
  rcases hws with ((h1 | h1) | h1) | h1 <;> (subst h1; exact absurd h (by decide))

theorem isDigit_ne {c x : Char} (h : c.isDigit = true) (hx : x.isDigit = false) : c ≠ x := by
  intro he
  subst he
  rw [h] at hx
  simp at hx

theorem charsVal_append_digit (l : PyStr) (c : Char) :
    charsVal (l ++ [c]) = 10 * charsVal l + (c.toNat - 48) := by
  simp [charsVal, List.foldl_append]

theorem pyStrNatAux_spec :
    ∀ f n, n < f →
      pyStrNatAux f n ≠ [] ∧ (∀ c ∈ pyStrNatAux f n, c.isDigit = true)
        ∧ charsVal (pyStrNatAux f n) = n := by
  intro f
  induction f with
  | zero => intro n hn; omega
  | succ f ih =>
      intro n hn
      by_cases h10 : n < 10
      · refine ⟨by simp [pyStrNatAux, h10], ?_, ?_⟩
        · intro c hc
          simp [pyStrNatAux, h10] at hc
          subst hc
          exact (pyDigitChar_facts n h10).1
        · simp [pyStrNatAux, h10, charsVal, (pyDigitChar_facts n h10).2]
      · have hdiv : n / 10 < n := Nat.div_lt_self (by omega) (by omega)
        have hrec := ih (n / 10) (by omega)
        refine ⟨?_, ?_, ?_⟩
        · simp only [pyStrNatAux, if_neg h10]
          intro hcontra
          exact hrec.1 (List.append_eq_nil.mp hcontra).1
        · intro c hc
          simp only [pyStrNatAux, if_neg h10, List.mem_append, List.mem_singleton] at hc
          rcases hc with hc | hc
          · exact hrec.2.1 c hc
          · subst hc
            exact (pyDigitChar_facts (n % 10) (Nat.mod_lt n (by omega))).1
        · simp only [pyStrNatAux, if_neg h10]
          rw [charsVal_append_digit, hrec.2.2,
            (pyDigitChar_facts (n % 10) (Nat.mod_lt n (by omega))).2]
          omega

theorem pyStrNat_ne_nil (n : Nat) : pyStrNat n ≠ [] :=
  (pyStrNatAux_spec (n + 1) n (Nat.lt_succ_self n)).1

theorem pyStrNat_digits (n : Nat) : ∀ c ∈ pyStrNat n, c.isDigit = true :=
  (pyStrNatAux_spec (n + 1) n (Nat.lt_succ_self n)).2.1

theorem charsVal_pyStrNat (n : Nat) : charsVal (pyStrNat n) = n :=
  (pyStrNatAux_spec (n + 1) n (Nat.lt_succ_self n)).2.2

theorem dropWhile_eq_self_of_none {p : Char → Bool} {l : PyStr}
    (h : ∀ c ∈ l, p c = false) : l.dropWhile p = l := by
  cases l with
  | nil => rfl
  | cons a l => simp [List.dropWhile_cons, h a (by simp)]

theorem pyTrim_eq_self {l : PyStr} (h : ∀ c ∈ l, c.isWhitespace = false) :
    pyTrim l = l := by
  unfold pyTrim
  rw [dropWhile_eq_self_of_none h,
    dropWhile_eq_self_of_none (by intro c hc; exact h c (List.mem_reverse.mp hc)),
    List.reverse_reverse]

theorem pyIntChars_of_digits {l : PyStr} (hne : l ≠ [])
    (hd : ∀ c ∈ l, c.isDigit = true) : pyIntChars l = some (charsVal l) := by
  unfold pyIntChars
  rw [pyTrim_eq_self (fun c hc => isDigit_not_ws (hd c hc))]
  have h1 : (!l.isEmpty && l.all Char.isDigit) = true := by
    rw [Bool.and_eq_true]
    constructor
    · cases l with
      | nil => exact absurd rfl hne
      | cons a l => rfl
    · rw [List.all_eq_true]
      exact hd
  simp [h1]

theorem pyIntChars_pyStrNat (n : Nat) : pyIntChars (pyStrNat n) = some n := by
  rw [pyIntChars_of_digits (pyStrNat_ne_nil n) (pyStrNat_digits n), charsVal_pyStrNat]

/-! ### splitOnChar / joinChar lemmas -/

theorem splitOnChar_ne_nil (sep : Char) (l : PyStr) : splitOnChar sep l ≠ [] := by
  cases l with
  | nil => simp [splitOnChar]
  | cons c cs =>
      simp only [splitOnChar]
      by_cases h : c = sep
      · simp [h]
      · simp only [if_neg h]
        cases splitOnChar sep cs with
        | nil => simp
        | cons t ts => simp

theorem splitOnChar_cons_sep (sep : Char) (l : PyStr) :
    splitOnChar sep (sep :: l) = [] :: splitOnChar sep l := by
  simp [splitOnChar]

theorem splitOnChar_append_no_sep {sep : Char} :
    ∀ (a b : PyStr) (t : PyStr) (ts : List PyStr), (∀ c ∈ a, c ≠ sep) →
      splitOnChar sep b = t :: ts → splitOnChar sep (a ++ b) = (a ++ t) :: ts := by
  intro a
  induction a with
  | nil => intro b t ts _ hb; simpa using hb
  | cons c a' ih =>
      intro b t ts h hb
      have hc : c ≠ sep := h c (by simp)
      have hrec := ih b t ts (fun x hx => h x (by simp [hx])) hb
      have hstep : splitOnChar sep (c :: (a' ++ b)) =
          match splitOnChar sep (a' ++ b) with
          | [] => [[c]]
          | t :: ts => (c :: t) :: ts := by
        simp only [splitOnChar, if_neg hc]
      rw [List.cons_append, hstep, hrec]
      rfl

theorem splitOnChar_no_sep {sep : Char} (l : PyStr) (h : ∀ c ∈ l, c ≠ sep) :
    splitOnChar sep l = [l] := by
  have := splitOnChar_append_no_sep l [] [] [] h (by simp [splitOnChar])
  simpa using this

theorem splitOnChar_joinChar {sep : Char} :
    ∀ comps : List PyStr, comps ≠ [] → (∀ s ∈ comps, ∀ c ∈ s, c ≠ sep) →
      splitOnChar sep (joinChar sep comps) = comps := by
  intro comps
  induction comps with
  | nil => intro h; exact absurd rfl h
  | cons s rest ih =>
      intro _ h
      cases rest with
      | nil => exact splitOnChar_no_sep s (h s (by simp))
      | cons s2 rest2 =>
          have hrec := ih (by simp) (fun x hx => h x (List.mem_cons_of_mem s hx))
          have hstep : splitOnChar sep (sep :: joinChar sep (s2 :: rest2))
              = [] :: s2 :: rest2 := by
            rw [splitOnChar_cons_sep, hrec]
          have := splitOnChar_append_no_sep s (sep :: joinChar sep (s2 :: rest2))
            [] (s2 :: rest2) (h s (by simp)) hstep
          simpa [joinChar] using this

/-! ### Character inventory of an encoded vector line -/

theorem encodeRest_chars (prev : Nat) (v : List Nat) :
    ∀ c ∈ encodeRest prev v, c.isDigit = true ∨ c = ',' ∨ c = '@' := by
  induction v generalizing prev with
  | nil => intro c hc; simp [encodeRest] at hc
  | cons x rest ih =>
      intro c hc
      simp only [encodeRest, List.mem_append] at hc
      rcases hc with hc | hc
      · by_cases hx : x = prev
        · rw [if_pos hx] at hc
          simp at hc
          right; right; exact hc
        · rw [if_neg hx] at hc
          simp only [List.mem_cons] at hc
          rcases hc with hc | hc
          · right; left; exact hc
          · left; exact pyStrNat_digits x c hc
      · exact ih x c hc

theorem encodeVector_chars (v : List Nat) :
    ∀ c ∈ encodeVector v, c.isDigit = true ∨ c = ',' ∨ c = '@' := by
  cases v with
  | nil => intro c hc; simp [encodeVector] at hc
  | cons x rest =>
      intro c hc
      simp only [encodeVector, List.mem_append] at hc
      rcases hc with hc | hc
      · left; exact pyStrNat_digits x c hc
      · exact encodeRest_chars x rest c hc

/-! ### Decoding lemmas -/

theorem contains_true_iff_mem {l : PyStr} {a : Char} : l.contains a = true ↔ a ∈ l := by
  rw [List.contains_iff_exists_mem_beq]
  constructor
  · rintro ⟨b, hb, hab⟩
    rw [eq_of_beq hab]
    exact hb
  · intro h
    exact ⟨a, h, by simp⟩

theorem contains_false_of_not_mem {l : PyStr} {a : Char} (h : a ∉ l) :
    l.contains a = false := by
  cases hc : l.contains a
  · rfl
  · exact absurd (contains_true_iff_mem.mp hc) h

theorem decodeTokens_nil : decodeTokens [] = some [] := rfl

theorem decodeTokens_cons_some {e : PyStr} {ls : List PyStr} {chunk rest : List Nat}
    (hd : decodeEntry e = some chunk) (hm : decodeTokens ls = some rest) :
    decodeTokens (e :: ls) = some (chunk ++ rest) := by
  unfold decodeTokens
  rw [hd, hm]

theorem decodeEntry_digit_at (x k : Nat) :
    decodeEntry (pyStrNat x ++ List.replicate k '@') = some (List.replicate (k + 1) x) := by
  have hAtDigits : ∀ c ∈ pyStrNat x, ¬(c = '@') := by
    intro c hc
    exact isDigit_ne (pyStrNat_digits x c hc) (by decide)
  cases k with
  | zero =>
      have h0 : List.replicate 0 '@' = ([] : PyStr) := rfl
      rw [h0, List.append_nil]
      have hnc : (pyStrNat x).contains '@' = false :=
        contains_false_of_not_mem (fun hm => hAtDigits '@' hm rfl)
      unfold decodeEntry
      rw [hnc]
      simp [pyIntChars_pyStrNat, List.replicate]
  | succ k' =>
      have hc : (pyStrNat x ++ List.replicate (k' + 1) '@').contains '@' = true := by
        rw [contains_true_iff_mem, List.mem_append]
        right
        exact List.mem_replicate.mpr ⟨Nat.succ_ne_zero k', rfl⟩
      have hfil : (pyStrNat x ++ List.replicate (k' + 1) '@').filter (fun c => !(c == '@'))
          = pyStrNat x := by
        rw [List.filter_append]
        have h1 : (pyStrNat x).filter (fun c => !(c == '@')) = pyStrNat x := by
          rw [List.filter_eq_self]
          intro c hc2
          simp only [Bool.not_eq_true']
          exact beq_eq_false_iff_ne.mpr (hAtDigits c hc2)
        have h2 : (List.replicate (k' + 1) '@').filter (fun c => !(c == '@')) = [] := by
          rw [List.filter_eq_nil_iff]
          intro c hc2
          simp only [List.mem_replicate] at hc2
          simp [hc2.2]
        rw [h1, h2, List.append_nil]
      have hcount : (pyStrNat x ++ List.replicate (k' + 1) '@').count '@' = k' + 1 := by
        rw [List.count_append]
        have h1 : (pyStrNat x).count '@' = 0 := by
          rw [List.count_eq_zero]
          intro hmem
          exact hAtDigits '@' hmem rfl
        rw [h1, List.count_replicate_self]
        omega
      simp [decodeEntry, hc, hfil, hcount, pyIntChars_pyStrNat]

theorem encodeVector_no_ws (v : List Nat) :
    ∀ c ∈ encodeVector v, c.isWhitespace = false := by
  intro c hc
  rcases encodeVector_chars v c hc with h | h | h
  · exact isDigit_not_ws h
  · subst h; decide
  · subst h; decide

theorem replicate_append_cons {α : Type} (k : Nat) (a : α) (l : List α) :
    List.replicate k a ++ a :: l = List.replicate (k + 1) a ++ l := by
  rw [List.replicate_succ']
  simp

theorem digit_at_token_no_comma (x k : Nat) :
    ∀ c ∈ pyStrNat x ++ List.replicate k '@', c ≠ ',' := by
  intro c hc
  rcases List.mem_append.mp hc with h | h
  · exact isDigit_ne (pyStrNat_digits x c h) (by decide)
  · rw [(List.mem_replicate.mp h).2]; decide

theorem decode_encode_aux :
    ∀ (rest : List Nat) (x k : Nat),
      decodeTokens (splitOnChar ','
          (pyStrNat x ++ (List.replicate k '@' ++ encodeRest x rest)))
        = some (List.replicate (k + 1) x ++ rest) := by
  intro rest
  induction rest with
  | nil =>
      intro x k
      have harg : pyStrNat x ++ (List.replicate k '@' ++ encodeRest x [])
          = pyStrNat x ++ List.replicate k '@' := by
        simp [encodeRest]
      rw [harg, splitOnChar_no_sep _ (digit_at_token_no_comma x k)]
      rw [decodeTokens_cons_some (decodeEntry_digit_at x k) decodeTokens_nil]
  | cons y r ih =>
      intro x k
      by_cases hxy : y = x
      · subst hxy
        have harg : pyStrNat y ++ (List.replicate k '@' ++ encodeRest y (y :: r))
            = pyStrNat y ++ (List.replicate (k + 1) '@' ++ encodeRest y r) := by
          have : encodeRest y (y :: r) = '@' :: encodeRest y r := by
            simp [encodeRest]
          rw [this, ← replicate_append_cons]
        rw [harg, ih y (k + 1)]
        rw [replicate_append_cons]
      · have harg : pyStrNat x ++ (List.replicate k '@' ++ encodeRest x (y :: r))
            = (pyStrNat x ++ List.replicate k '@')
              ++ (',' :: (pyStrNat y ++ (List.replicate 0 '@' ++ encodeRest y r))) := by
          have : encodeRest x (y :: r) = (',' :: pyStrNat y) ++ encodeRest y r := by
            simp [encodeRest, hxy]
          rw [this]
          simp
        rw [harg]
        have hC := ih y 0
        cases hsplit : splitOnChar ',' (pyStrNat y ++ (List.replicate 0 '@' ++ encodeRest y r)) with
        | nil => exact absurd hsplit (splitOnChar_ne_nil ',' _)
        | cons t ts =>
            have hstep : splitOnChar ','
                (',' :: (pyStrNat y ++ (List.replicate 0 '@' ++ encodeRest y r)))
                = [] :: t :: ts := by
              rw [splitOnChar_cons_sep, hsplit]
            have hall := splitOnChar_append_no_sep (pyStrNat x ++ List.replicate k '@')
              (',' :: (pyStrNat y ++ (List.replicate 0 '@' ++ encodeRest y r)))
              [] (t :: ts) (digit_at_token_no_comma x k) hstep
            rw [hall, List.append_nil]
            rw [hsplit] at hC
            have := decodeTokens_cons_some (decodeEntry_digit_at x k) hC
            rw [this]
            simp

theorem decodeFirstLine_encodeVector {v : List Nat} (h : v ≠ []) :
    decodeFirstLine (encodeVector v) = some v := by
  cases v with
  | nil => exact absurd rfl h
  | cons x rest =>
      unfold decodeFirstLine
      rw [pyTrim_eq_self (encodeVector_no_ws (x :: rest))]
      have harg : encodeVector (x :: rest)
          = pyStrNat x ++ (List.replicate 0 '@' ++ encodeRest x rest) := by
        simp [encodeVector]
      rw [harg, decode_encode_aux rest x 0]
      simp

/-! ### Claim C2: the run-length shorthand -/

/-- Claim C2 (counterexample): the compressed first line for the vector
`[5,5,5,5]` is not `5,@,@,@` — the writer appends a bare `@` with no comma
separator, so the claimed encoded form is not what `write_glue` emits. -/
theorem encodeVector_5555_not_comma_form :
    encodeVector [5, 5, 5, 5] ≠ "5,@,@,@".toList := by decide

/-- Claim C2 (amended): in the first line written by `write_glue` with
compression enabled, a vector element identical to its predecessor is
written as the literal character `@` appended directly to the running
text, with no comma and no repeated number, so `[5,5,5,5]` is encoded as
the line `5@@@`; and `read_glue`'s decoder reconstructs the original
integer sequence exactly from that encoded form, for runs of any
length. -/
theorem runlength_codec_roundtrip (v : List Nat) (h : v ≠ []) :
    encodeVector [5, 5, 5, 5] = "5@@@".toList ∧
    decodeFirstLine (encodeVector v) = some v :=
  ⟨by decide, decodeFirstLine_encodeVector h⟩

theorem runlength_codec_roundtrip_witness :
    encodeVector [5, 5, 5, 5] = "5@@@".toList ∧
    decodeFirstLine (encodeVector [5, 5, 5, 5]) = some [5, 5, 5, 5] :=
  runlength_codec_roundtrip [5, 5, 5, 5] (by decide)

/-! ### Claim C10: write_glue on a missing or empty wave -/

/-- Claim C10: for every call of `write_glue` whose wave argument is
`None` or has an empty vector, the call returns the error sentinel `-1`
and writes no file. -/
theorem write_glue_rejects_empty (compress : Bool) (w : GlueWave)
    (h : w.vector.length < 1) :
    write_glue none compress = { returned_err := true, file := none } ∧
    write_glue (some w) compress = { returned_err := true, file := none } := by
  constructor
  · rfl
  · show (if w.vector.length < 1 then { returned_err := true, file := none }
      else _) = ({ returned_err := true, file := none } : WriteGlueResult)
    rw [if_pos h]

theorem write_glue_rejects_empty_witness :
    write_glue none true = { returned_err := true, file := none } ∧
    write_glue (some (GlueWave.init [] (some 25000) HWArg.hwNone [])) true
      = { returned_err := true, file := none } :=
  write_glue_rejects_empty true (GlueWave.init [] (some 25000) HWArg.hwNone []) (by decide)

/-! ### Claim C7: read_glue error paths -/

/-- Claim C7: `read_glue` returns the null sentinel on a missing file and
on a malformed (non-numeric, non-`@`) first-line token — but on an
existing empty file (`readlines() = []`) the subscript `lines[0]` at line
674 raises an uncaught `IndexError` instead of failing gracefully, so the
claim's "never raises" does not hold on the code. -/
theorem read_glue_error_paths :
    read_glue (some []) = ReadResult.crash "IndexError: list index out of range" ∧
    read_glue none = ReadResult.failed ∧
    read_glue (some ["5,x".toList]) = ReadResult.failed := by
  refine ⟨rfl, rfl, by decide⟩

/-! ### Claim C3: metadata is not carried through -/

/-- Claim C3: contrary to the claim, a `GlueWave` constructed with a
non-empty metadata map does not carry it to serialized form: line 126 of
the constructor resets `self.metadata` to the empty dict, so `write_glue`
emits only the vector line and the two mandatory metadata lines — no
`//CUSTOM_KEY:VAL` line appears. -/
theorem write_glue_metadata_not_emitted :
    (∀ vector strobe hw md, (GlueWave.init vector strobe hw md).metadata = []) ∧
    (write_glue (some (GlueWave.init [1] (some 25000)
        (HWArg.hwList ["PXI1Slot5".toList, "NI6583".toList, "se_io".toList])
        [("CUSTOM_KEY".toList, "VAL".toList)])) true).file
      = some ["1".toList,
              "//STROBE_PICOSECONDS:25000".toList,
              "//HARDWARE:PXI1Slot5/NI6583/se_io".toList] :=
  ⟨fun _ _ _ _ => rfl, by decide⟩

/-! ### Claim C8: ascii2Glue mutates the loaded IOSpec -/

/-- Claim C8: contrary to the claim, the IOSpec is not immutable after
loading: `ascii2Glue` binds `IOs_to_Plot` to the `self.Input_IOs` list
object itself, and its multiplexed-pin pruning removes elements from that
list in place.  On an IOSpec with the multiplexed input pair `A`/`A2` and
an ascii file naming only `A`, the call deletes `A2` from
`self.Input_IOs`. -/
theorem ascii2Glue_mutates_loaded_iospec :
    gcMux.Input_IOs = ["A".toList, "A2".toList, "B".toList] ∧
    (ascii2GlueIOSpecAfter gcMux ["A".toList] true).Input_IOs
      = ["A".toList, "B".toList] :=
  ⟨rfl, by decide⟩

/-! ### Claim C9: the AsciiWave equal-length invariant -/

/-- Claim C9 (counterexample): `set_signal` appends `str(set_val)`, so an
edit with the two-character value 10 on an equally-lengthed wave leaves
the signals with unequal bitstring lengths. -/
theorem asciiwave_set_signal_multichar_counterexample :
    asciiAB.uniform ∧ ¬ (asciiAB.set_signal "A".toList 10).uniform := by
  constructor
  · decide
  · decide

theorem pyStrNat_single_digit {v : Nat} (h : v ≤ 9) : (pyStrNat v).length = 1 := by
  simp only [pyStrNat, pyStrNatAux]
  rw [if_pos (by omega)]
  rfl

theorem extendSignalStr_length (s : PyStr) (n : Nat) :
    (extendSignalStr s n).length = s.length + n := by
  simp [extendSignalStr]

theorem alookup_mem {k : PyStr} :
    ∀ {cw : List (PyStr × PyStr)} {p : PyStr}, alookup k cw = some p → (k, p) ∈ cw := by
  intro cw
  induction cw with
  | nil => intro p h; simp [alookup] at h
  | cons kv rest ih =>
      intro p h
      by_cases hk : kv.1 = k
      · rw [alookup, if_pos hk] at h
        have hkv : (k, p) = kv := by
          obtain ⟨a, b⟩ := kv
          simp only [Option.some_inj] at h
          simp only at hk
          rw [← hk, ← h]
        rw [hkv]
        exact List.mem_cons_self kv rest
      · rw [alookup, if_neg hk] at h
        exact List.mem_cons_of_mem kv (ih h)

/-- Claim C9 (amended): starting from an `AsciiWave` whose bitstrings all
have the same positive length `L`, each edit operation preserves the
equal-length invariant — `pulse_signal` and (well-formed) `custom_wave`
unconditionally, and `set_signal` whenever the appended value renders as
a single character (in particular for the bit values 0 and 1); a signal
not explicitly touched by the edit has its last character replicated so
every signal's bitstring has the same length afterward. -/
theorem asciiwave_edits_preserve_uniform (w : AsciiWave) (L : Nat) (hL : 1 ≤ L)
    (hu : w.uniformLen L) :
    (∀ sig v, v ≤ 9 → (w.set_signal sig v).uniformLen (L + 1)) ∧
    (∀ sig pe, (w.pulse_signal sig pe).uniformLen (L + 3)) ∧
    (∀ k0 v0 rest, (((k0, v0) :: rest : List (PyStr × PyStr)).all
        (fun kv => kv.2.length == v0.length)) = true →
      (w.custom_wave ((k0, v0) :: rest)).uniformLen (L + v0.length)) := by
  refine ⟨?_, ?_, ?_⟩
  · intro sig v hv kv hkv
    rcases List.mem_map.mp hkv with ⟨kv0, hkv0, heq⟩
    by_cases hs : kv0.1 = sig
    · rw [if_pos hs] at heq
      rw [← heq]
      simp only [List.length_append, hu kv0 hkv0, pyStrNat_single_digit hv]
    · rw [if_neg hs] at heq
      rw [← heq]
      simp only [extendSignalStr_length, hu kv0 hkv0]
  · intro sig pe kv hkv
    rcases List.mem_map.mp hkv with ⟨kv0, hkv0, heq⟩
    by_cases hs : kv0.1 = sig
    · rw [if_pos hs] at heq
      rw [← heq]
      cases pe <;> simp [List.length_append, hu kv0 hkv0]
    · rw [if_neg hs] at heq
      rw [← heq]
      simp only [extendSignalStr_length, hu kv0 hkv0]
  · intro k0 v0 rest hall kv hkv
    have hstep : w.custom_wave ((k0, v0) :: rest)
        = if (((k0, v0) :: rest).all (fun kv => kv.2.length == v0.length)) = true
          then (⟨w.signals.map (fun kv =>
              match alookup kv.1 ((k0, v0) :: rest) with
              | some p => (kv.1, kv.2 ++ p)
              | none => (kv.1, extendSignalStr kv.2 v0.length))⟩ : AsciiWave)
          else w := rfl
    rw [hstep, if_pos hall] at hkv
    rcases List.mem_map.mp hkv with ⟨kv0, hkv0, heq⟩
    cases hlook : alookup kv0.1 ((k0, v0) :: rest) with
    | some p =>
        rw [hlook] at heq
        rw [← heq]
        show (kv0.2 ++ p).length = L + v0.length
        have hp := List.all_eq_true.mp hall _ (alookup_mem hlook)
        simp only [beq_iff_eq] at hp
        rw [List.length_append, hu kv0 hkv0, hp]
    | none =>
        rw [hlook] at heq
        rw [← heq]
        show (extendSignalStr kv0.2 v0.length).length = L + v0.length
        rw [extendSignalStr_length, hu kv0 hkv0]

theorem asciiwave_edits_preserve_uniform_witness :
    (∀ sig v, v ≤ 9 → (asciiAB.set_signal sig v).uniformLen 2) ∧
    (∀ sig pe, (asciiAB.pulse_signal sig pe).uniformLen 4) ∧
    (∀ k0 v0 rest, (((k0, v0) :: rest : List (PyStr × PyStr)).all
        (fun kv => kv.2.length == v0.length)) = true →
      (asciiAB.custom_wave ((k0, v0) :: rest)).uniformLen (1 + v0.length)) :=
  asciiwave_edits_preserve_uniform asciiAB 1 (by decide) (by decide)

/-! ### Claim C5: clocked-bitstream extraction -/

theorem foldl_append_filterMap (p : Nat → Prop) [DecidablePred p] (g : Nat → Nat) :
    ∀ (is : List Nat) (acc : List Nat),
      is.foldl (fun bs i => if p i then bs ++ [g i] else bs) acc
        = acc ++ is.filterMap (fun i => if p i then some (g i) else none) := by
  intro is
  induction is with
  | nil => intro acc; simp
  | cons i is ih =>
      intro acc
      by_cases hp : p i
      · simp [List.foldl_cons, hp, ih, List.filterMap_cons]
      · simp [List.foldl_cons, hp, ih, List.filterMap_cons]

theorem bitTrace_length (wave : GlueWave) (pos : Nat) :
    (bitTrace wave pos).length = wave.vector.length := by
  simp [bitTrace]

/-- Claim C5: `get_clocked_bitstream` walks timesteps `1..len-1` and,
exactly at each step `i` where the clock bit transitions from 0 at `i-1`
to 1 at `i`, appends the data bit value at step `i-1` (pre-edge
sampling); and on the test wave (`A` = clock at bit 0, `B` = data at bit
1, vector `[2,3,0,5,4,5,6,7]`) it returns `[1,0,0,1]`. -/
theorem get_clocked_bitstream_spec (gc : IOSpecState) (wave : GlueWave)
    (clock_name data_name : PyStr) (h : gc.IOs ≠ []) :
    get_clocked_bitstream gc wave clock_name data_name
      = some (clockedBitstreamSpec (bitTrace wave (gc.IO_pos clock_name))
          (bitTrace wave (gc.IO_pos data_name))) ∧
    get_clocked_bitstream gcABC waveABC "A".toList "B".toList = some [1, 0, 0, 1] := by
  constructor
  · have hlen : ¬ gc.IOs.length = 0 := by
      intro hc
      exact h (List.length_eq_zero.mp hc)
    unfold get_clocked_bitstream clockedBitstreamSpec
    rw [if_neg hlen, bitTrace_length]
    show some (List.foldl
        (fun bs i =>
          if (bitTrace wave (gc.IO_pos clock_name)).getD i 0 = 1
            ∧ (bitTrace wave (gc.IO_pos clock_name)).getD (i - 1) 0 = 0
          then bs ++ [(bitTrace wave (gc.IO_pos data_name)).getD (i - 1) 0] else bs)
        [] (List.range' 1 (wave.vector.length - 1))) = _
    rw [foldl_append_filterMap
      (fun i => (bitTrace wave (gc.IO_pos clock_name)).getD i 0 = 1
        ∧ (bitTrace wave (gc.IO_pos clock_name)).getD (i - 1) 0 = 0)
      (fun i => (bitTrace wave (gc.IO_pos data_name)).getD (i - 1) 0)]
    rw [List.nil_append]
    have hfun : (fun i =>
          if (bitTrace wave (gc.IO_pos clock_name)).getD i 0 = 1
            ∧ (bitTrace wave (gc.IO_pos clock_name)).getD (i - 1) 0 = 0
          then some ((bitTrace wave (gc.IO_pos data_name)).getD (i - 1) 0) else none)
        = (fun i =>
          if (bitTrace wave (gc.IO_pos clock_name)).getD (i - 1) 0 = 0
            ∧ (bitTrace wave (gc.IO_pos clock_name)).getD i 0 = 1
          then some ((bitTrace wave (gc.IO_pos data_name)).getD (i - 1) 0) else none) := by
      funext i
      exact if_congr and_comm rfl rfl
    rw [hfun]
  · decide

theorem get_clocked_bitstream_spec_witness :
    get_clocked_bitstream gcABC waveABC "A".toList "B".toList
      = some (clockedBitstreamSpec (bitTrace waveABC (gcABC.IO_pos "A".toList))
          (bitTrace waveABC (gcABC.IO_pos "B".toList))) ∧
    get_clocked_bitstream gcABC waveABC "A".toList "B".toList = some [1, 0, 0, 1] :=
  get_clocked_bitstream_spec gcABC waveABC "A".toList "B".toList (by decide)

/-! ### Claim C6: dict2Glue bit packing -/

theorem contains_iff_mem {α : Type} [BEq α] [LawfulBEq α] {l : List α} {a : α} :
    l.contains a = true ↔ a ∈ l := by
  rw [List.contains_iff_exists_mem_beq]
  constructor
  · rintro ⟨b, hb, hab⟩
    rw [eq_of_beq hab]
    exact hb
  · intro h
    exact ⟨a, h, by simp⟩

theorem mapWithIdx_length (f : Nat → Nat → Nat) :
    ∀ (i : Nat) (l : List Nat), (mapWithIdx f i l).length = l.length := by
  intro i l
  induction l generalizing i with
  | nil => rfl
  | cons x rest ih => simp [mapWithIdx, ih]

theorem mapWithIdx_getD (f : Nat → Nat → Nat) :
    ∀ (l : List Nat) (i t : Nat), t < l.length →
      (mapWithIdx f i l).getD t 0 = f (i + t) (l.getD t 0) := by
  intro l
  induction l with
  | nil => intro i t ht; simp at ht
  | cons x rest ih =>
      intro i t ht
      cases t with
      | zero => simp [mapWithIdx]
      | succ t' =>
          have := ih (i + 1) t' (by simpa using ht)
          simp only [mapWithIdx, List.getD_cons_succ, this]
          congr 1
          omega

theorem packSignal_length (gc : IOSpecState) (vec : List Nat) (kv : PyStr × List Nat) :
    (packSignal gc vec kv).length = vec.length := by
  simp [packSignal, mapWithIdx_length]

theorem packSignal_getD (gc : IOSpecState) (vec : List Nat) (kv : PyStr × List Nat)
    (t : Nat) (ht : t < vec.length) :
    (packSignal gc vec kv).getD t 0
      = vec.getD t 0 ||| (kv.2.getD (min t (kv.2.length - 1)) 0 <<< gc.IO_pos kv.1) := by
  unfold packSignal
  rw [mapWithIdx_getD _ vec 0 t ht]
  simp only [Nat.zero_add]
  by_cases hlt : t < kv.2.length
  · rw [if_pos hlt, Nat.min_eq_left (by omega : t ≤ kv.2.length - 1)]
  · rw [if_neg hlt, Nat.min_eq_right (by omega : kv.2.length - 1 ≤ t)]

theorem getD_le_one : ∀ {l : List Nat}, (∀ v ∈ l, v ≤ 1) → ∀ (i : Nat), l.getD i 0 ≤ 1 := by
  intro l
  induction l with
  | nil => intro _ i; simp
  | cons x rest ih =>
      intro h i
      cases i with
      | zero => exact h x (by simp)
      | succ i' => exact ih (fun v hv => h v (by simp [hv])) i'

theorem testBit_shl_le_one {v pos P : Nat} (hv : v ≤ 1) :
    (v <<< pos).testBit P = (decide (P = pos) && decide (v = 1)) := by
  interval_cases v
  · rw [Nat.zero_shiftLeft]
    simp
  · rw [Nat.one_shiftLeft, Nat.testBit_two_pow]
    simp [eq_comm]

theorem getD_replicate_zero : ∀ (n t : Nat), (List.replicate n (0 : Nat)).getD t 0 = 0 := by
  intro n
  induction n with
  | zero => intro t; simp
  | succ n ih =>
      intro t
      cases t with
      | zero => simp [List.replicate_succ]
      | succ t' => simp [List.replicate_succ, ih t']

theorem fold_pack_length (gc : IOSpecState) :
    ∀ (l : List (PyStr × List Nat)) (vec : List Nat),
      (l.foldl (packSignal gc) vec).length = vec.length := by
  intro l
  induction l with
  | nil => intro vec; rfl
  | cons kv rest ih =>
      intro vec
      rw [List.foldl_cons, ih, packSignal_length]

theorem fold_pack_testBit_other (gc : IOSpecState) (P : Nat) :
    ∀ (l : List (PyStr × List Nat)) (vec : List Nat) (t : Nat), t < vec.length →
      (∀ kv ∈ l, gc.IO_pos kv.1 ≠ P) → (∀ kv ∈ l, ∀ v ∈ kv.2, v ≤ 1) →
      ((l.foldl (packSignal gc) vec).getD t 0).testBit P = (vec.getD t 0).testBit P := by
  intro l
  induction l with
  | nil => intro vec t _ _ _; rfl
  | cons kv rest ih =>
      intro vec t ht hothers hvals
      rw [List.foldl_cons]
      rw [ih (packSignal gc vec kv) t (by rw [packSignal_length]; exact ht)
        (fun q hq => hothers q (by simp [hq]))
        (fun q hq => hvals q (by simp [hq]))]
      rw [packSignal_getD gc vec kv t ht, Nat.testBit_lor]
      rw [testBit_shl_le_one (getD_le_one (hvals kv (by simp)) _)]
      rw [decide_eq_false (Ne.symm (hothers kv (by simp)))]
      simp

theorem fold_pack_testBit_self (gc : IOSpecState) (kv : PyStr × List Nat)
    (l1 l2 : List (PyStr × List Nat)) (vec0 : List Nat) (t : Nat)
    (ht : t < vec0.length)
    (hz : (vec0.getD t 0).testBit (gc.IO_pos kv.1) = false)
    (h1 : ∀ q ∈ l1, gc.IO_pos q.1 ≠ gc.IO_pos kv.1)
    (h2 : ∀ q ∈ l2, gc.IO_pos q.1 ≠ gc.IO_pos kv.1)
    (hv1 : ∀ q ∈ l1, ∀ v ∈ q.2, v ≤ 1)
    (hv2 : ∀ q ∈ l2, ∀ v ∈ q.2, v ≤ 1)
    (hvk : ∀ v ∈ kv.2, v ≤ 1) :
    (((l1 ++ kv :: l2).foldl (packSignal gc) vec0).getD t 0).testBit (gc.IO_pos kv.1)
      = decide (kv.2.getD (min t (kv.2.length - 1)) 0 = 1) := by
  rw [List.foldl_append, List.foldl_cons]
  have htA : t < (l1.foldl (packSignal gc) vec0).length := by
    rw [fold_pack_length]
    exact ht
  rw [fold_pack_testBit_other gc (gc.IO_pos kv.1) l2 _ t
    (by rw [packSignal_length]; exact htA) h2 hv2]
  rw [packSignal_getD gc _ kv t htA, Nat.testBit_lor]
  rw [fold_pack_testBit_other gc (gc.IO_pos kv.1) l1 vec0 t ht h1 hv1, hz]
  rw [testBit_shl_le_one (getD_le_one hvk _)]
  simp

theorem GlueWave.init_vector (v : List Nat) (s : Option Nat) (h : HWArg)
    (m : List (PyStr × PyStr)) : (GlueWave.init v s h m).vector = v := rfl

theorem GlueWave.init_strobe (v : List Nat) (s : Option Nat) (h : HWArg)
    (m : List (PyStr × PyStr)) : (GlueWave.init v s h m).strobe_ps = s := rfl

theorem GlueWave.init_hwStr (v : List Nat) (s : Option Nat) (l : PyStr)
    (m : List (PyStr × PyStr)) :
    (GlueWave.init v s (HWArg.hwStr l) m).hardware = some (splitOnChar '/' l) := rfl

theorem inferHWLoop_const (gc : IOSpecState) (hw0 : PyStr) :
    ∀ (l : List (PyStr × List Nat)), (∀ kv ∈ l, gc.IO_hardware kv.1 = hw0) →
      inferHWLoop gc l (some hw0) = some (some hw0) := by
  intro l
  induction l with
  | nil => intro _; rfl
  | cons kv rest ih =>
      intro h
      show (if some hw0 = some (gc.IO_hardware kv.1)
        then inferHWLoop gc rest (some hw0) else none) = some (some hw0)
      rw [h kv (by simp), if_pos rfl]
      exact ih (fun q hq => h q (by simp [hq]))

theorem inferHWLoop_start (gc : IOSpecState) (hw0 : PyStr)
    (l : List (PyStr × List Nat)) (hne : l ≠ [])
    (h : ∀ kv ∈ l, gc.IO_hardware kv.1 = hw0) :
    inferHWLoop gc l none = some (some hw0) := by
  cases l with
  | nil => exact absurd rfl hne
  | cons kv rest =>
      show (if some (gc.IO_hardware kv.1) = some (gc.IO_hardware kv.1)
        then inferHWLoop gc rest (some (gc.IO_hardware kv.1)) else none) = some (some hw0)
      rw [if_pos rfl, h kv (by simp)]
      exact inferHWLoop_const gc hw0 rest (fun q hq => h q (by simp [hq]))

/-- Claim C6: `dict2Glue` packs each supplied signal's 0/1 sequence into
the output vector at that signal's IOSpec bit position; the output vector
length is the longest supplied sequence's length, and each shorter
sequence's last value is held for the remaining timesteps; on the test
IOSpec (`A`→bit0, `B`→bit1, `C`→bit2) with the test dict the vector is
`[2,3,0,5,4,5,6,7]`.  (The supplied signals are assumed to occupy
pairwise distinct bit positions, as a non-multiplexed IOSpec provides.) -/
theorem dict2Glue_bit_packing (gc : IOSpecState) (wdict : List (PyStr × List Nat))
    (hw0 : PyStr)
    (hne : wdict ≠ [])
    (hkeys : ∀ kv ∈ wdict, kv.1 ∈ gc.IOs)
    (hhw : ∀ kv ∈ wdict, gc.IO_hardware kv.1 = hw0)
    (hvals : ∀ kv ∈ wdict, ∀ v ∈ kv.2, v ≤ 1)
    (hlens : ∀ kv ∈ wdict, kv.2 ≠ [])
    (hposnd : (wdict.map (fun kv => gc.IO_pos kv.1)).Nodup) :
    ∃ w, dict2Glue gc wdict none none = some w ∧
      w.vector.length = (wdict.map (fun kv => kv.2.length)).foldl max 0 ∧
      (∀ kv ∈ wdict, ∀ t, t < (wdict.map (fun kv => kv.2.length)).foldl max 0 →
        ((w.vector.getD t 0).testBit (gc.IO_pos kv.1) = true
          ↔ kv.2.getD (min t (kv.2.length - 1)) 0 = 1)) ∧
      (dict2Glue gcABC dictABC none none).map GlueWave.vector
        = some [2, 3, 0, 5, 4, 5, 6, 7] := by
  have hall : (wdict.all (fun kv => gc.IOs.contains kv.1)) = true := by
    rw [List.all_eq_true]
    intro kv hkv
    exact contains_iff_mem.mpr (hkeys kv hkv)
  have hinfer := inferHWLoop_start gc hw0 wdict hne hhw
  unfold dict2Glue
  rw [hall, hinfer]
  rw [if_neg (by decide : ¬((!true) = true))]
  refine ⟨_, rfl, ?_, ?_, ?_⟩
  · rw [GlueWave.init_vector, fold_pack_length, List.length_replicate]
  · intro kv hkv t ht
    rw [GlueWave.init_vector]
    revert ht
    generalize (wdict.map (fun kv => kv.2.length)).foldl max 0 = M
    intro ht
    obtain ⟨l1, l2, hsplit⟩ := List.append_of_mem hkv
    have hv1 : ∀ q ∈ l1, ∀ v ∈ q.2, v ≤ 1 := by
      intro q hq
      exact hvals q (by rw [hsplit]; exact List.mem_append_left _ hq)
    have hv2 : ∀ q ∈ l2, ∀ v ∈ q.2, v ≤ 1 := by
      intro q hq
      exact hvals q
        (by rw [hsplit]; exact List.mem_append_right _ (List.mem_cons_of_mem kv hq))
    rw [hsplit, List.map_append, List.map_cons, List.nodup_append] at hposnd
    obtain ⟨hnd1, hnd2, hdisj⟩ := hposnd
    rw [List.nodup_cons] at hnd2
    have hP2 : ∀ q ∈ l2, gc.IO_pos q.1 ≠ gc.IO_pos kv.1 := by
      intro q hq hEq
      exact hnd2.1 (hEq ▸ List.mem_map_of_mem (fun kv => gc.IO_pos kv.1) hq)
    have hP1 : ∀ q ∈ l1, gc.IO_pos q.1 ≠ gc.IO_pos kv.1 := by
      intro q hq hEq
      have hin := hdisj (List.mem_map_of_mem (fun kv => gc.IO_pos kv.1) hq)
      rw [hEq] at hin
      exact hin (List.mem_cons_self _ _)
    rw [hsplit]
    have ht' : t < (List.replicate M (0 : Nat)).length := by
      rw [List.length_replicate]
      exact ht
    rw [fold_pack_testBit_self gc kv l1 l2 _ t ht'
      (by rw [getD_replicate_zero]; exact Nat.zero_testBit _)
      hP1 hP2 hv1 hv2 (hvals kv hkv)]
    simp
  · decide

theorem dict2Glue_bit_packing_witness :
    ∃ w, dict2Glue gcABC dictABC none none = some w ∧
      w.vector.length = (dictABC.map (fun kv => kv.2.length)).foldl max 0 ∧
      (∀ kv ∈ dictABC, ∀ t, t < (dictABC.map (fun kv => kv.2.length)).foldl max 0 →
        ((w.vector.getD t 0).testBit (gcABC.IO_pos kv.1) = true
          ↔ kv.2.getD (min t (kv.2.length - 1)) 0 = 1)) ∧
      (dict2Glue gcABC dictABC none none).map GlueWave.vector
        = some [2, 3, 0, 5, 4, 5, 6, 7] :=
  dict2Glue_bit_packing gcABC dictABC ("Caribou/apg/write".toList)
    (by decide) (by decide) (by decide) (by decide) (by decide) (by decide)

/-! ### Claim C4: VCD2Glue sampling -/

theorem getD_set_self {l : List Nat} {t : Nat} {a : Nat} (h : t < l.length) :
    (l.set t a).getD t 0 = a := by
  rw [List.getD_eq_getElem?_getD, List.getElem?_set_self h]
  rfl

theorem getD_set_other {l : List Nat} {t t' : Nat} {a : Nat} (h : t ≠ t') :
    (l.set t a).getD t' 0 = l.getD t' 0 := by
  rw [List.getD_eq_getElem?_getD, List.getD_eq_getElem?_getD, List.getElem?_set_ne h]

theorem testBit_setBitOn (x pos P : Nat) :
    (setBitOn x pos).testBit P = (x.testBit P || decide (pos = P)) := by
  unfold setBitOn
  rw [Nat.testBit_lor, Nat.one_shiftLeft, Nat.testBit_two_pow]

theorem testBit_clearBitOn (x pos P : Nat) :
    (clearBitOn x pos).testBit P = (x.testBit P && !(decide (pos = P))) := by
  unfold clearBitOn
  rw [Nat.testBit_bitwise (by rfl), Nat.one_shiftLeft, Nat.testBit_two_pow]

theorem set_bit_one_vector (w : GlueWave) (t pos : Nat) :
    (w.set_bit t pos 1).vector = w.vector.set t (setBitOn (w.vector.getD t 0) pos) := rfl

theorem set_bit_one_mask (w : GlueWave) (t pos : Nat) :
    (w.set_bit t pos 1).mask = w.mask := rfl

theorem set_bit_one_length (w : GlueWave) (t pos : Nat) :
    (w.set_bit t pos 1).vector.length = w.vector.length := by
  rw [set_bit_one_vector, List.length_set]

theorem set_bit_one_bit_other (w : GlueWave) (t' pos : Nat) (t P : Nat) (hP : pos ≠ P) :
    ((w.set_bit t' pos 1).vector.getD t 0).testBit P
      = ((w.vector.getD t 0)).testBit P := by
  rw [set_bit_one_vector]
  by_cases hte : t' = t
  · subst hte
    by_cases hl : t' < w.vector.length
    · rw [getD_set_self hl, testBit_setBitOn, decide_eq_false hP]
      simp
    · rw [List.set_eq_of_length_le (by omega)]
  · rw [getD_set_other hte]

theorem set_mask_bit_vector (w : GlueWave) (pos v : Nat) :
    (w.set_mask_bit pos v).vector = w.vector := by
  unfold GlueWave.set_mask_bit
  split <;> rfl

theorem set_mask_bit_mask_other (w : GlueWave) (pos v : Nat) (P : Nat) (hP : pos ≠ P) :
    (w.set_mask_bit pos v).mask.testBit P = w.mask.testBit P := by
  unfold GlueWave.set_mask_bit
  split
  · show (setBitOn w.mask pos).testBit P = _
    rw [testBit_setBitOn, decide_eq_false hP]
    simp
  · show (clearBitOn w.mask pos).testBit P = _
    rw [testBit_clearBitOn, decide_eq_false hP]
    simp

theorem fold_setbit_length (cond : Nat → Prop) [DecidablePred cond] (pos : Nat) :
    ∀ (l : List Nat) (w : GlueWave),
      ((l.foldl (fun wv t => if cond t then wv.set_bit t pos 1 else wv) w)).vector.length
        = w.vector.length := by
  intro l
  induction l with
  | nil => intro w; rfl
  | cons i l ih =>
      intro w
      rw [List.foldl_cons]
      by_cases hc : cond i
      · rw [if_pos hc, ih, set_bit_one_length]
      · rw [if_neg hc, ih]

theorem fold_setbit_mask (cond : Nat → Prop) [DecidablePred cond] (pos : Nat) :
    ∀ (l : List Nat) (w : GlueWave),
      ((l.foldl (fun wv t => if cond t then wv.set_bit t pos 1 else wv) w)).mask = w.mask := by
  intro l
  induction l with
  | nil => intro w; rfl
  | cons i l ih =>
      intro w
      rw [List.foldl_cons]
      by_cases hc : cond i
      · rw [if_pos hc, ih, set_bit_one_mask]
      · rw [if_neg hc, ih]

theorem fold_setbit_bit_other (cond : Nat → Prop) [DecidablePred cond]
    (pos P : Nat) (hne : pos ≠ P) :
    ∀ (l : List Nat) (w : GlueWave) (t : Nat),
      (((l.foldl (fun wv t => if cond t then wv.set_bit t pos 1 else wv) w)).vector.getD t 0).testBit P
        = ((w.vector.getD t 0)).testBit P := by
  intro l
  induction l with
  | nil => intro w t; rfl
  | cons i l ih =>
      intro w t
      rw [List.foldl_cons]
      by_cases hc : cond i
      · rw [if_pos hc, ih, set_bit_one_bit_other w i pos t P hne]
      · rw [if_neg hc, ih]

theorem fold_setbit_bit_self (cond : Nat → Prop) [DecidablePred cond] (pos : Nat) :
    ∀ (n : Nat) (w : GlueWave), n ≤ w.vector.length → ∀ (t : Nat),
      ((((List.range n).foldl (fun wv t => if cond t then wv.set_bit t pos 1 else wv) w)).vector.getD t 0).testBit pos
        = ((decide (t < n) && decide (cond t)) || ((w.vector.getD t 0)).testBit pos) := by
  intro n
  induction n with
  | zero =>
      intro w _ t
      simp [List.range_zero]
  | succ n ih =>
      intro w hn t
      rw [List.range_succ, List.foldl_append, List.foldl_cons, List.foldl_nil]
      have hWlen : ((List.range n).foldl
          (fun wv t => if cond t then wv.set_bit t pos 1 else wv) w).vector.length
          = w.vector.length := fold_setbit_length cond pos _ w
      by_cases hc : cond n
      · rw [if_pos hc]
        by_cases hte : t = n
        · subst hte
          rw [set_bit_one_vector, getD_set_self (by rw [hWlen]; omega), testBit_setBitOn]
          simp [hc, Nat.lt_succ_self]
        · rw [set_bit_one_vector, getD_set_other (fun hh => hte hh.symm), ih w (by omega) t]
          have hdec : (decide (t < n) : Bool) = decide (t < n + 1) :=
            decide_eq_decide.mpr (by omega)
          rw [hdec]
      · rw [if_neg hc]
        rw [ih w (by omega) t]
        by_cases hte : t = n
        · subst hte
          simp [hc]
        · have hdec : (decide (t < n) : Bool) = decide (t < n + 1) :=
            decide_eq_decide.mpr (by omega)
          rw [hdec]

theorem getD_map_lt {f : Nat → Nat} :
    ∀ {l : List Nat} {t : Nat}, t < l.length → ((l.map f).getD t 0) = f (l.getD t 0) := by
  intro l
  induction l with
  | nil => intro t ht; simp at ht
  | cons x rest ih =>
      intro t ht
      cases t with
      | zero => rfl
      | succ t' => exact ih (by simpa using ht)

theorem addPresentSignal_eq_fold (f : Nat → PyStr) (ratio : Nat × Nat) (s pos : Nat) (w : GlueWave) :
    addPresentSignal f ratio s pos w
      = (List.range w.vector.length).foldl
          (fun wv t => if f (sampleTick ratio s t) = "1".toList
            then wv.set_bit t pos 1 else wv) w := rfl

theorem processSignal_preserves (gc : IOSpecState) (vcd : VCDTrace) (tb : PyStr)
    (ratio : Nat × Nat) (H : PyStr) (P : Nat) (waves : PyStr → GlueWave) (io : PyStr)
    (hio : gc.IO_hardware io ≠ H ∨ gc.IO_pos io ≠ P) :
    ((processSignal gc vcd tb ratio waves io) H).vector.length = (waves H).vector.length
    ∧ ((processSignal gc vcd tb ratio waves io) H).mask.testBit P = (waves H).mask.testBit P
    ∧ ∀ t, (((processSignal gc vcd tb ratio waves io) H).vector.getD t 0).testBit P
        = (((waves H).vector.getD t 0)).testBit P := by
  cases hsig : vcd.signal (tb ++ '.' :: io) with
  | some f =>
      have hps : processSignal gc vcd tb ratio waves io
          = Function.update waves (gc.IO_hardware io)
              (addPresentSignal f ratio vcd.starttime (gc.IO_pos io)
                (waves (gc.IO_hardware io))) := by
        unfold processSignal
        rw [hsig]
      rw [hps]
      by_cases hH : gc.IO_hardware io = H
      · rcases hio with hio | hio
        · exact absurd hH hio
        · rw [hH, Function.update_same, addPresentSignal_eq_fold]
          refine ⟨fold_setbit_length _ _ _ _, ?_, ?_⟩
          · rw [fold_setbit_mask]
          · intro t
            rw [fold_setbit_bit_other _ _ P hio]
      · rw [Function.update_noteq (fun hh => hH hh.symm)]
        exact ⟨rfl, rfl, fun t => rfl⟩
  | none =>
      have hps : processSignal gc vcd tb ratio waves io
          = Function.update waves (gc.IO_hardware io)
              ((waves (gc.IO_hardware io)).set_mask_bit (gc.IO_pos io)
                (gc.IO_default io)) := by
        unfold processSignal
        rw [hsig]
      rw [hps]
      by_cases hH : gc.IO_hardware io = H
      · rcases hio with hio | hio
        · exact absurd hH hio
        · rw [hH, Function.update_same]
          refine ⟨?_, ?_, ?_⟩
          · rw [set_mask_bit_vector]
          · rw [set_mask_bit_mask_other _ _ _ _ hio]
          · intro t
            rw [set_mask_bit_vector]
      · rw [Function.update_noteq (fun hh => hH hh.symm)]
        exact ⟨rfl, rfl, fun t => rfl⟩

theorem fold_processSignal_preserves (gc : IOSpecState) (vcd : VCDTrace) (tb : PyStr)
    (ratio : Nat × Nat) (H : PyStr) (P : Nat) :
    ∀ (l : List PyStr) (waves : PyStr → GlueWave),
      (∀ io ∈ l, gc.IO_hardware io ≠ H ∨ gc.IO_pos io ≠ P) →
      ((l.foldl (processSignal gc vcd tb ratio) waves) H).vector.length
          = (waves H).vector.length
      ∧ ((l.foldl (processSignal gc vcd tb ratio) waves) H).mask.testBit P
          = (waves H).mask.testBit P
      ∧ ∀ t, (((l.foldl (processSignal gc vcd tb ratio) waves) H).vector.getD t 0).testBit P
          = (((waves H).vector.getD t 0)).testBit P := by
  intro l
  induction l with
  | nil => intro waves _; exact ⟨rfl, rfl, fun t => rfl⟩
  | cons io l ih =>
      intro waves h
      rw [List.foldl_cons]
      have hstep := processSignal_preserves gc vcd tb ratio H P waves io (h io (by simp))
      have hrec := ih (processSignal gc vcd tb ratio waves io)
        (fun q hq => h q (by simp [hq]))
      refine ⟨?_, ?_, ?_⟩
      · rw [hrec.1, hstep.1]
      · rw [hrec.2.1, hstep.2.1]
      · intro t
        rw [hrec.2.2 t, hstep.2.2 t]

theorem VCD2GlueWaves_eq (gc : IOSpecState) (vcd : VCDTrace) (strobe_ps : Nat)
    (vcd_timebase_ps : Nat) (tb_name : PyStr) (inputs_only : Bool)
    (hios : ¬ gc.IOs.length = 0) (hmux : gc.Multiplexed_IOs = []) :
    VCD2GlueWaves gc vcd strobe_ps vcd_timebase_ps tb_name inputs_only
      = some (fun hw => (((scopeSignals gc inputs_only).foldl
          (processSignal gc vcd tb_name (strobe_ps, vcd_timebase_ps))
          (fun hw' => GlueWave.init
            (List.replicate (vcdVectorLen vcd strobe_ps vcd_timebase_ps) 0)
            (some strobe_ps) (HWArg.hwStr hw') [])) hw).apply_mask) := by
  unfold VCD2GlueWaves
  rw [if_neg hios, if_neg (by simp [hmux])]
  rfl

theorem apply_mask_vector (w : GlueWave) :
    w.apply_mask.vector = w.vector.map (fun x => x ||| w.mask) := rfl

theorem GlueWave.init_mask (v : List Nat) (s : Option Nat) (h : HWArg)
    (m : List (PyStr × PyStr)) : (GlueWave.init v s h m).mask = 0 := rfl

theorem processSignal_length_any (gc : IOSpecState) (vcd : VCDTrace) (tb : PyStr)
    (ratio : Nat × Nat) (waves : PyStr → GlueWave) (io : PyStr) (H : PyStr) :
    ((processSignal gc vcd tb ratio waves io) H).vector.length
      = (waves H).vector.length := by
  cases hsig : vcd.signal (tb ++ '.' :: io) with
  | some f =>
      have hps : processSignal gc vcd tb ratio waves io
          = Function.update waves (gc.IO_hardware io)
              (addPresentSignal f ratio vcd.starttime (gc.IO_pos io)
                (waves (gc.IO_hardware io))) := by
        unfold processSignal
        rw [hsig]
      rw [hps]
      by_cases hH : gc.IO_hardware io = H
      · rw [hH, Function.update_same, addPresentSignal_eq_fold]
        rw [fold_setbit_length]
      · rw [Function.update_noteq (fun hh => hH hh.symm)]
  | none =>
      have hps : processSignal gc vcd tb ratio waves io
          = Function.update waves (gc.IO_hardware io)
              ((waves (gc.IO_hardware io)).set_mask_bit (gc.IO_pos io)
                (gc.IO_default io)) := by
        unfold processSignal
        rw [hsig]
      rw [hps]
      by_cases hH : gc.IO_hardware io = H
      · rw [hH, Function.update_same, set_mask_bit_vector]
      · rw [Function.update_noteq (fun hh => hH hh.symm)]

theorem fold_processSignal_length_any (gc : IOSpecState) (vcd : VCDTrace) (tb : PyStr)
    (ratio : Nat × Nat) (H : PyStr) :
    ∀ (l : List PyStr) (waves : PyStr → GlueWave),
      ((l.foldl (processSignal gc vcd tb ratio) waves) H).vector.length
        = (waves H).vector.length := by
  intro l
  induction l with
  | nil => intro waves; rfl
  | cons io l ih =>
      intro waves
      rw [List.foldl_cons, ih, processSignal_length_any]

/-- Claim C4 (amended): for every VCD trace with start tick `s` and end
tick `e`, every strobe-to-VCD-timebase ratio `r = strobe_ps /
vcd_timebase_ps` (not necessarily an integer, and possibly < 1), every
IOSpec without multiplexed pins, and every in-scope signal with bit
position `p` that is present in the trace: `VCD2Glue` produces, for the
signal's hardware group, a wave of vector length `floor((e - s) / r)`
whose bit `p` at each timestep `t` equals 1 exactly when the trace's
value for that signal at tick `int(t * r + s) = floor(t * r) + s`
(truncating, not rounding) is logic-1. -/
theorem VCD2Glue_floor_sampling (gc : IOSpecState) (vcd : VCDTrace) (strobe_ps : Nat)
    (vcd_timebase_ps : Nat) (tb_name : PyStr) (inputs_only : Bool) (sig : PyStr)
    (f : Nat → PyStr)
    (hios : gc.IOs ≠ [])
    (hmux : gc.Multiplexed_IOs = [])
    (hscope : sig ∈ scopeSignals gc inputs_only)
    (hnodup : (scopeSignals gc inputs_only).Nodup)
    (hnomux : ∀ io ∈ scopeSignals gc inputs_only, io ≠ sig →
      gc.IO_hardware io = gc.IO_hardware sig → gc.IO_pos io ≠ gc.IO_pos sig)
    (hf : vcd.signal (tb_name ++ '.' :: sig) = some f) :
    ∃ waves, VCD2GlueWaves gc vcd strobe_ps vcd_timebase_ps tb_name inputs_only
        = some waves ∧
      (waves (gc.IO_hardware sig)).vector.length
        = vcdVectorLen vcd strobe_ps vcd_timebase_ps ∧
      ∀ t, t < vcdVectorLen vcd strobe_ps vcd_timebase_ps →
        ((waves (gc.IO_hardware sig)).vector.getD t 0).testBit (gc.IO_pos sig)
          = decide (f (sampleTick (strobe_ps, vcd_timebase_ps) vcd.starttime t)
              = "1".toList) := by
  have hios' : ¬ gc.IOs.length = 0 := fun hc => hios (List.length_eq_zero.mp hc)
  rw [VCD2GlueWaves_eq gc vcd strobe_ps vcd_timebase_ps tb_name inputs_only hios' hmux]
  have hlen_all : (((scopeSignals gc inputs_only).foldl
      (processSignal gc vcd tb_name (strobe_ps, vcd_timebase_ps))
      (fun hw' => GlueWave.init
        (List.replicate (vcdVectorLen vcd strobe_ps vcd_timebase_ps) 0)
        (some strobe_ps) (HWArg.hwStr hw') [])) (gc.IO_hardware sig)).vector.length
      = vcdVectorLen vcd strobe_ps vcd_timebase_ps := by
    rw [fold_processSignal_length_any, GlueWave.init_vector, List.length_replicate]
  refine ⟨_, rfl, ?_, ?_⟩
  · rw [apply_mask_vector, List.length_map]
    exact hlen_all
  · intro t ht
    obtain ⟨l1, l2, hsplit⟩ := List.append_of_mem hscope
    rw [hsplit, List.nodup_append, List.nodup_cons] at hnodup
    obtain ⟨hnd1, ⟨hsig2, hnd2⟩, hdisj⟩ := hnodup
    have hsig1 : sig ∉ l1 := fun hin => hdisj hin (List.mem_cons_self _ _)
    have hoth1 : ∀ io ∈ l1, gc.IO_hardware io ≠ gc.IO_hardware sig
        ∨ gc.IO_pos io ≠ gc.IO_pos sig := by
      intro io hin
      by_cases hh : gc.IO_hardware io = gc.IO_hardware sig
      · right
        exact hnomux io (by rw [hsplit]; exact List.mem_append_left _ hin)
          (fun he => hsig1 (he ▸ hin)) hh
      · left
        exact hh
    have hoth2 : ∀ io ∈ l2, gc.IO_hardware io ≠ gc.IO_hardware sig
        ∨ gc.IO_pos io ≠ gc.IO_pos sig := by
      intro io hin
      by_cases hh : gc.IO_hardware io = gc.IO_hardware sig
      · right
        exact hnomux io
          (by rw [hsplit]; exact List.mem_append_right _ (List.mem_cons_of_mem sig hin))
          (fun he => hsig2 (he ▸ hin)) hh
      · left
        exact hh
    rw [apply_mask_vector]
    rw [hsplit, List.foldl_append, List.foldl_cons]
    have hA := fold_processSignal_preserves gc vcd tb_name
      (strobe_ps, vcd_timebase_ps) (gc.IO_hardware sig) (gc.IO_pos sig) l1
      (fun hw' => GlueWave.init
        (List.replicate (vcdVectorLen vcd strobe_ps vcd_timebase_ps) 0)
        (some strobe_ps) (HWArg.hwStr hw') []) hoth1
    have hps : processSignal gc vcd tb_name (strobe_ps, vcd_timebase_ps)
        (l1.foldl (processSignal gc vcd tb_name (strobe_ps, vcd_timebase_ps))
          (fun hw' => GlueWave.init
            (List.replicate (vcdVectorLen vcd strobe_ps vcd_timebase_ps) 0)
            (some strobe_ps) (HWArg.hwStr hw') [])) sig
        = Function.update
            (l1.foldl (processSignal gc vcd tb_name (strobe_ps, vcd_timebase_ps))
              (fun hw' => GlueWave.init
                (List.replicate (vcdVectorLen vcd strobe_ps vcd_timebase_ps) 0)
                (some strobe_ps) (HWArg.hwStr hw') []))
            (gc.IO_hardware sig)
            (addPresentSignal f (strobe_ps, vcd_timebase_ps) vcd.starttime
              (gc.IO_pos sig)
              ((l1.foldl (processSignal gc vcd tb_name (strobe_ps, vcd_timebase_ps))
                (fun hw' => GlueWave.init
                  (List.replicate (vcdVectorLen vcd strobe_ps vcd_timebase_ps) 0)
                  (some strobe_ps) (HWArg.hwStr hw') [])) (gc.IO_hardware sig))) := by
      unfold processSignal
      rw [hf]
    have hC := fold_processSignal_preserves gc vcd tb_name
      (strobe_ps, vcd_timebase_ps) (gc.IO_hardware sig) (gc.IO_pos sig) l2
      (processSignal gc vcd tb_name (strobe_ps, vcd_timebase_ps)
        (l1.foldl (processSignal gc vcd tb_name (strobe_ps, vcd_timebase_ps))
          (fun hw' => GlueWave.init
            (List.replicate (vcdVectorLen vcd strobe_ps vcd_timebase_ps) 0)
            (some strobe_ps) (HWArg.hwStr hw') [])) sig) hoth2
    have hAlen : ((l1.foldl (processSignal gc vcd tb_name
        (strobe_ps, vcd_timebase_ps))
        (fun hw' => GlueWave.init
          (List.replicate (vcdVectorLen vcd strobe_ps vcd_timebase_ps) 0)
          (some strobe_ps) (HWArg.hwStr hw') [])) (gc.IO_hardware sig)).vector.length
        = vcdVectorLen vcd strobe_ps vcd_timebase_ps := by
      rw [hA.1, GlueWave.init_vector, List.length_replicate]
    have htot : t < ((l2.foldl (processSignal gc vcd tb_name
        (strobe_ps, vcd_timebase_ps))
        (processSignal gc vcd tb_name (strobe_ps, vcd_timebase_ps)
          (l1.foldl (processSignal gc vcd tb_name (strobe_ps, vcd_timebase_ps))
            (fun hw' => GlueWave.init
              (List.replicate (vcdVectorLen vcd strobe_ps vcd_timebase_ps) 0)
              (some strobe_ps) (HWArg.hwStr hw') [])) sig)) (gc.IO_hardware sig)).vector.length := by
      rw [hC.1, hps, Function.update_same, addPresentSignal_eq_fold, fold_setbit_length,
        hAlen]
      exact ht
    rw [getD_map_lt htot, Nat.testBit_lor]
    rw [hC.2.2 t, hC.2.1]
    rw [hps, Function.update_same]
    rw [addPresentSignal_eq_fold]
    rw [fold_setbit_bit_self _ _ _ _ le_rfl t]
    rw [fold_setbit_mask]
    rw [hA.2.2 t, hA.2.1]
    rw [GlueWave.init_vector, GlueWave.init_mask, getD_replicate_zero]
    rw [Nat.zero_testBit]
    have htA : decide (t < ((l1.foldl (processSignal gc vcd tb_name
        (strobe_ps, vcd_timebase_ps))
        (fun hw' => GlueWave.init
          (List.replicate (vcdVectorLen vcd strobe_ps vcd_timebase_ps) 0)
          (some strobe_ps) (HWArg.hwStr hw') [])) (gc.IO_hardware sig)).vector.length)
        = true := by
      rw [decide_eq_true_eq, hAlen]
      exact ht
    rw [htA]
    simp

/-- Claim C4 (counterexample): with ratio `3/2`, start tick 0, a
single-signal IOSpec and a trace that is 0 at tick 1 and 1 at tick 2, the
wave produced by `VCD2Glue` has bit 0 clear at timestep 1 (the code
samples `int(1 * 3/2 + 0) = 1`), while the trace at the claimed tick
`round(1 * 3/2) + 0 = 2` is logic-1 — so the claimed
round-based sampling relation is false on the code. -/
theorem VCD2Glue_round_sampling_refuted :
    sampleBitOf (VCD2GlueWaves gcVCD vcdA 3 2 ("TB".toList) true) ("HW/X/y".toList) 1 0
        = false
    ∧ (VCD2GlueWaves gcVCD vcdA 3 2 ("TB".toList) true).isSome = true
    ∧ vcdVectorLen vcdA 3 2 = 2
    ∧ fVCD (pythonRoundFrac (1 * 3) 2 + vcdA.starttime) = "1".toList := by
  refine ⟨by decide, by decide, by decide, by decide⟩

theorem VCD2Glue_floor_sampling_witness :
    ∃ waves, VCD2GlueWaves gcVCD vcdA 3 2 ("TB".toList) true = some waves ∧
      (waves (gcVCD.IO_hardware "A".toList)).vector.length = vcdVectorLen vcdA 3 2 ∧
      ∀ t, t < vcdVectorLen vcdA 3 2 →
        ((waves (gcVCD.IO_hardware "A".toList)).vector.getD t 0).testBit
            (gcVCD.IO_pos "A".toList)
          = decide (fVCD (sampleTick (3, 2) vcdA.starttime t) = "1".toList) :=
  VCD2Glue_floor_sampling gcVCD vcdA 3 2 ("TB".toList) true ("A".toList) fVCD
    (by decide) rfl (by decide) (by decide) (by decide) rfl

/-! ### Claim C1: the codec round trip -/

theorem pyStarts_append : ∀ (p b : PyStr), pyStarts (p ++ b) p = true := by
  intro p
  induction p with
  | nil => intro b; cases b <;> rfl
  | cons c p ih =>
      intro b
      show (c == c && pyStarts (p ++ b) p) = true
      rw [ih b, beq_self_eq_true]
      rfl

theorem pyStarts_mem : ∀ (s p : PyStr), pyStarts s p = true → ∀ c ∈ p, c ∈ s := by
  intro s
  induction s with
  | nil =>
      intro p h c hc
      cases p with
      | nil => simp at hc
      | cons x xs => simp [pyStarts] at h
  | cons y s' ih =>
      intro p h c hc
      cases p with
      | nil => simp at hc
      | cons x xs =>
          have h' : (y == x && pyStarts s' xs) = true := h
          rw [Bool.and_eq_true] at h'
          rcases List.mem_cons.mp hc with hc | hc
          · rw [hc, ← eq_of_beq h'.1]
            exact List.mem_cons_self _ _
          · exact List.mem_cons_of_mem y (ih xs h'.2 c hc)

theorem pyIn_of_decomp : ∀ (a pat b : PyStr), pyIn pat (a ++ (pat ++ b)) = true := by
  intro a
  induction a with
  | nil =>
      intro pat b
      cases pat with
      | nil =>
          cases b with
          | nil => rfl
          | cons x xs => show (pyStarts (x :: xs) [] || _) = true; rfl
      | cons p ps =>
          show (pyStarts ((p :: ps) ++ b) (p :: ps) || _) = true
          rw [pyStarts_append]
          rfl
  | cons c a' ih =>
      intro pat b
      show (pyStarts _ pat || pyIn pat (a' ++ (pat ++ b))) = true
      rw [ih pat b, Bool.or_true]

theorem pyIn_mem : ∀ (s pat : PyStr), pyIn pat s = true → ∀ c ∈ pat, c ∈ s := by
  intro s
  induction s with
  | nil =>
      intro pat h c hc
      cases pat with
      | nil => simp at hc
      | cons x xs => simp [pyIn, List.isEmpty] at h
  | cons y s' ih =>
      intro pat h c hc
      have h' : (pyStarts (y :: s') pat || pyIn pat s') = true := h
      rw [Bool.or_eq_true] at h'
      rcases h' with h' | h'
      · exact pyStarts_mem (y :: s') pat h' c hc
      · exact List.mem_cons_of_mem y (ih pat h' c hc)

theorem pyIn_false_of_not_mem {pat s : PyStr} {c : Char} (hc : c ∈ pat) (hs : c ∉ s) :
    pyIn pat s = false := by
  cases h : pyIn pat s
  · rfl
  · exact absurd (pyIn_mem s pat h c hc) hs

theorem joinChar_mem {sep : Char} :
    ∀ (l : List PyStr) (c : Char), c ∈ joinChar sep l → c = sep ∨ ∃ s ∈ l, c ∈ s := by
  intro l
  induction l with
  | nil => intro c hc; simp [joinChar] at hc
  | cons s rest ih =>
      intro c hc
      cases rest with
      | nil =>
          right
          exact ⟨s, by simp, by simpa [joinChar] using hc⟩
      | cons s2 r2 =>
          rw [show joinChar sep (s :: s2 :: r2) = s ++ sep :: joinChar sep (s2 :: r2)
            from rfl] at hc
          rcases List.mem_append.mp hc with h | h
          · right
            exact ⟨s, by simp, h⟩
          · rcases List.mem_cons.mp h with h | h
            · left
              exact h
            · rcases ih c h with h | ⟨s', hs', hc'⟩
              · left
                exact h
              · right
                exact ⟨s', by simp [hs'], hc'⟩

theorem bool_not_true {b : Bool} (h : (!b) = true) : b = false := by
  cases b
  · rfl
  · simp at h

theorem goodPathChar_facts {c : Char} (h : goodPathChar c = true) :
    c ≠ '/' ∧ c ≠ ':' ∧ c.isWhitespace = false := by
  unfold goodPathChar at h
  rw [Bool.and_eq_true, Bool.and_eq_true] at h
  refine ⟨?_, ?_, ?_⟩
  · exact beq_eq_false_iff_ne.mp (bool_not_true h.1.1)
  · exact beq_eq_false_iff_ne.mp (bool_not_true h.1.2)
  · exact bool_not_true h.2

theorem wellFormedHW_unpack {comps : List PyStr} (h : wellFormedHW comps = true) :
    comps.length = 3 ∧ (∀ s ∈ comps, ∀ c ∈ s, goodPathChar c = true)
      ∧ pyIn "STROBE".toList (hwMetaLine comps) = false := by
  unfold wellFormedHW at h
  rw [Bool.and_eq_true, Bool.and_eq_true] at h
  refine ⟨Nat.beq_eq_true_eq _ _ ▸ h.1.1, ?_, bool_not_true h.2⟩
  intro s hs c hc
  have := List.all_eq_true.mp h.1.2 s hs
  exact List.all_eq_true.mp this c hc

theorem scanLine_data (acc : Option Nat × Option PyStr) (v : List Nat) :
    scanLine acc (encodeVector v) = Except.ok acc := by
  have hS : pyIn "STROBE".toList (encodeVector v) = false := by
    refine pyIn_false_of_not_mem (c := 'S') (by decide) ?_
    intro hmem
    rcases encodeVector_chars v 'S' hmem with h | h | h
    · exact absurd h (by decide)
    · exact absurd h (by decide)
    · exact absurd h (by decide)
  have hH : pyIn "HARDWARE".toList (encodeVector v) = false := by
    refine pyIn_false_of_not_mem (c := 'H') (by decide) ?_
    intro hmem
    rcases encodeVector_chars v 'H' hmem with h | h | h
    · exact absurd h (by decide)
    · exact absurd h (by decide)
    · exact absurd h (by decide)
  have hS' : pyIn ['S', 'T', 'R', 'O', 'B', 'E'] (encodeVector v) = false := hS
  have hH' : pyIn ['H', 'A', 'R', 'D', 'W', 'A', 'R', 'E'] (encodeVector v) = false := hH
  simp [scanLine, hS', hH']

theorem scanLine_strobe (acc : Option Nat × Option PyStr) (sp : Nat) :
    scanLine acc (strobeTag ++ pyStrNat sp) = Except.ok (some sp, acc.2) := by
  have hS : pyIn "STROBE".toList (strobeTag ++ pyStrNat sp) = true := by
    have hdecomp : strobeTag ++ pyStrNat sp
        = "//".toList ++ ("STROBE".toList ++ ("_PICOSECONDS:".toList ++ pyStrNat sp)) := by
      have h0 : strobeTag = "//".toList ++ ("STROBE".toList ++ "_PICOSECONDS:".toList) := by
        decide
      rw [h0, List.append_assoc, List.append_assoc]
    rw [hdecomp]
    exact pyIn_of_decomp _ _ _
  have hH : pyIn "HARDWARE".toList (strobeTag ++ pyStrNat sp) = false := by
    refine pyIn_false_of_not_mem (c := 'W') (by decide) ?_
    intro hmem
    rcases List.mem_append.mp hmem with h | h
    · exact absurd h (by decide)
    · exact absurd (pyStrNat_digits sp 'W' h) (by decide)
  have htrim : pyTrim (strobeTag ++ pyStrNat sp) = strobeTag ++ pyStrNat sp := by
    apply pyTrim_eq_self
    intro c hc
    have htag : ∀ x ∈ strobeTag, Char.isWhitespace x = false := by decide
    rcases List.mem_append.mp hc with h | h
    · exact htag c h
    · exact isDigit_not_ws (pyStrNat_digits sp c h)
  have hsplit : splitOnChar ':' (strobeTag ++ pyStrNat sp)
      = ["//STROBE_PICOSECONDS".toList, pyStrNat sp] := by
    have h0 : strobeTag ++ pyStrNat sp
        = "//STROBE_PICOSECONDS".toList ++ (':' :: pyStrNat sp) := by
      have h1 : strobeTag = "//STROBE_PICOSECONDS".toList ++ [':'] := by decide
      rw [h1, List.append_assoc]
      rfl
    rw [h0]
    have h2 : splitOnChar ':' (':' :: pyStrNat sp) = [] :: [pyStrNat sp] := by
      rw [splitOnChar_cons_sep, splitOnChar_no_sep _
        (fun c hc => isDigit_ne (pyStrNat_digits sp c hc) (by decide))]
    have h3 := splitOnChar_append_no_sep "//STROBE_PICOSECONDS".toList
      (':' :: pyStrNat sp) [] [pyStrNat sp] (by decide) h2
    rw [h3, List.append_nil]
  have hS' : pyIn ['S', 'T', 'R', 'O', 'B', 'E'] (strobeTag ++ pyStrNat sp) = true := hS
  have hH' : pyIn ['H', 'A', 'R', 'D', 'W', 'A', 'R', 'E'] (strobeTag ++ pyStrNat sp)
      = false := hH
  simp [scanLine, hS', hH', htrim, hsplit, pyFloatNat, pyIntChars_pyStrNat]

theorem scanLine_hw (acc : Option Nat × Option PyStr) (comps : List PyStr)
    (hwf : wellFormedHW comps = true) :
    scanLine acc (hwMetaLine comps) = Except.ok (acc.1, some (joinChar '/' comps)) := by
  obtain ⟨hlen3, hgood, hS⟩ := wellFormedHW_unpack hwf
  have hH : pyIn "HARDWARE".toList (hwMetaLine comps) = true := by
    have hdecomp : hwMetaLine comps
        = "//".toList ++ ("HARDWARE".toList ++ (':' :: joinChar '/' comps)) := by
      show hwTag ++ joinChar '/' comps = _
      have h1 : hwTag = "//".toList ++ ("HARDWARE".toList ++ [':']) := by decide
      rw [h1, List.append_assoc, List.append_assoc]
      rfl
    rw [hdecomp]
    exact pyIn_of_decomp _ _ _
  have htrim : pyTrim (hwMetaLine comps) = hwMetaLine comps := by
    apply pyTrim_eq_self
    intro c hc
    have htag : ∀ x ∈ hwTag, Char.isWhitespace x = false := by decide
    rcases List.mem_append.mp hc with h | h
    · exact htag c h
    · rcases joinChar_mem _ c h with h | ⟨s, hs, hcs⟩
      · rw [h]; decide
      · exact (goodPathChar_facts (hgood s hs c hcs)).2.2
  have hnosep : ∀ c ∈ joinChar '/' comps, c ≠ ':' := by
    intro c hc
    rcases joinChar_mem _ c hc with h | ⟨s, hs, hcs⟩
    · rw [h]; decide
    · exact (goodPathChar_facts (hgood s hs c hcs)).2.1
  have hsplit : splitOnChar ':' (hwMetaLine comps)
      = ["//HARDWARE".toList, joinChar '/' comps] := by
    have h0 : hwMetaLine comps
        = "//HARDWARE".toList ++ (':' :: joinChar '/' comps) := by
      show hwTag ++ joinChar '/' comps = _
      have h1 : hwTag = "//HARDWARE".toList ++ [':'] := by decide
      rw [h1, List.append_assoc]
      rfl
    have h2 : splitOnChar ':' (':' :: joinChar '/' comps)
        = [] :: [joinChar '/' comps] := by
      rw [splitOnChar_cons_sep, splitOnChar_no_sep _ hnosep]
    have h3 := splitOnChar_append_no_sep "//HARDWARE".toList
      (':' :: joinChar '/' comps) [] [joinChar '/' comps] (by decide) h2
    rw [h0, h3, List.append_nil]
  have hS' : pyIn ['S', 'T', 'R', 'O', 'B', 'E'] (hwMetaLine comps) = false := hS
  have hH' : pyIn ['H', 'A', 'R', 'D', 'W', 'A', 'R', 'E'] (hwMetaLine comps)
      = true := hH
  simp [scanLine, hS', hH', htrim, hsplit]

theorem except_ok_bind {e σ β : Type} (a : σ) (f : σ → Except e β) :
    (Except.ok a >>= f : Except e β) = f a := rfl

/-- **C1.** Codec round trip: for every `GlueWave` with a non-empty vector,
a strobe period, a well-formed three-component hardware path and no
metadata (as every wave the constructor builds has, by line 126), reading
back the file written by `write_glue` yields a wave equal to the original
under `GlueWave.__eq__` (vector, hardware group and strobe period agree;
metadata and mask are not compared). -/
theorem read_write_glue_roundtrip (w : GlueWave) (sp : Nat) (comps : List PyStr)
    (hv : w.vector ≠ []) (hsp : w.strobe_ps = some sp)
    (hhw : w.hardware = some comps) (hwf : wellFormedHW comps = true)
    (hmeta : w.metadata = []) :
    ∃ w2, read_glue (write_glue (some w) true).file = ReadResult.ok w2
      ∧ GlueWave.eq w2 w = true := by
  obtain ⟨hlen3, hgood, _⟩ := wellFormedHW_unpack hwf
  have hlen : ¬ w.vector.length < 1 := by
    intro h
    exact hv (List.eq_nil_of_length_eq_zero (Nat.lt_one_iff.mp h))
  have hfile : (write_glue (some w) true).file
      = some [encodeVector w.vector, strobeTag ++ pyStrNat sp, hwMetaLine comps] := by
    show (if w.vector.length < 1 then
        ({ returned_err := true, file := none } : WriteGlueResult)
      else
        { returned_err := false
          file := some (encodeVector w.vector ::
            (strobeTag ++ pyStrOptNat w.strobe_ps) ::
            hwMetaLine (w.hardware.getD []) ::
            w.metadata.map (fun kv => "//".toList ++ kv.1 ++ ':' :: kv.2)) }).file = _
    rw [if_neg hlen, hsp, hhw, hmeta]
    rfl
  have hfold : List.foldlM scanLine ((none, none) : Option Nat × Option PyStr)
      [encodeVector w.vector, strobeTag ++ pyStrNat sp, hwMetaLine comps]
      = Except.ok (some sp, some (joinChar '/' comps)) := by
    rw [List.foldlM_cons, scanLine_data, except_ok_bind,
      List.foldlM_cons, scanLine_strobe, except_ok_bind,
      List.foldlM_cons, scanLine_hw _ _ hwf, except_ok_bind,
      List.foldlM_nil]
    rfl
  refine ⟨GlueWave.init w.vector (some sp)
      (HWArg.hwStr (joinChar '/' comps)) [], ?_, ?_⟩
  · rw [hfile]
    show (match decodeFirstLine (encodeVector w.vector) with
      | none => ReadResult.failed
      | some vector =>
          match List.foldlM scanLine ((none, none) : Option Nat × Option PyStr)
              [encodeVector w.vector, strobeTag ++ pyStrNat sp, hwMetaLine comps] with
          | Except.error e => ReadResult.crash e
          | Except.ok (strobe_ps, hardware) =>
              ReadResult.ok (GlueWave.init vector strobe_ps
                (match hardware with
                 | some h => HWArg.hwStr h
                 | none => HWArg.hwNone) [])) = _
    rw [decodeFirstLine_encodeVector hv, hfold]
  · have hne : comps ≠ [] := by
      intro h
      rw [h] at hlen3
      exact absurd hlen3 (by decide)
    have hnoslash : ∀ s ∈ comps, ∀ c ∈ s, c ≠ '/' := by
      intro s hs c hc
      exact (goodPathChar_facts (hgood s hs c hc)).1
    unfold GlueWave.eq
    rw [GlueWave.init_vector, GlueWave.init_strobe, GlueWave.init_hwStr,
      splitOnChar_joinChar comps hne hnoslash, hsp, hhw]
    simp

theorem read_write_glue_roundtrip_witness :
    ∃ w2, read_glue (write_glue (some waveRT) true).file = ReadResult.ok w2
      ∧ GlueWave.eq w2 waveRT = true :=
  read_write_glue_roundtrip waveRT 25000
    ["PXI1Slot5".toList, "NI6583".toList, "se_io".toList]
    (by decide) (by decide) (by decide) (by decide) (by decide)
